import Mathlib

/-!
Verification of the Sale Reversal & Stock Ledger Reconciliation Engine
(`src/unnamed/part_001`, the `POST` reverse-sale route) and the direct
stock-edit ledger path (`src/app/api/products/[id]/route.ts`, `PATCH`),
as a shallow embedding.

Conventions of the embedding:
* JavaScript numbers are modelled as exact rationals (`ℚ`); the engine's
  money arithmetic converts to integer cents before any allocation, so
  the interesting computations are exact.
* `Math.round` is modelled as round-half-up (`⌊x + 1/2⌋`), which is its
  JavaScript semantics.
* JavaScript `Map` objects keyed by the template string
  `productId + ":" + cents` are modelled as functions from the pair
  `(productId, cents)`; the string key determines the pair uniquely
  because the integer printed after the final colon never contains one.
* Database `DECIMAL(10,2)` columns (see `prisma/migrations/.../migration.sql`:
  `Stock.quantity`, `StockAdjustment.quantityBefore/After/Change`) round the
  stored value to 2 decimals; this storage rounding is modelled by `pgRound2`.
-/

/-- JavaScript `Math.round`: round half toward positive infinity. -/
def jsRound (q : ℚ) : ℤ := ⌊q + 1/2⌋

/-- `toCents` from the route: `Math.round(value * 100)`. -/
def toCents (value : ℚ) : ℤ := jsRound (value * 100)

/-- `centsToAmount` from the route: `cents / 100`. -/
def centsToAmount (cents : ℤ) : ℚ := (cents : ℚ) / 100

/-- `Number(x.toFixed(2))`: round a quantity to 2 decimal places
(half-up on the exact rational value). -/
def round2 (q : ℚ) : ℚ := (jsRound (q * 100) : ℚ) / 100

/-- Rounding applied by the database when a value is stored into a
`DECIMAL(10,2)` column (half away from zero, which agrees with half-up
on the nonnegative values that occur; modelled as half-up). -/
def pgRound2 (q : ℚ) : ℚ := round2 q

/-- Price-tier key `(productId, unitPriceInCents)`, the model of the
string key `` `${productId}:${toCents(price)}` ``. -/
abbrev Key := String × ℤ

/-- A persisted sale line (`SaleItem` row). -/
structure SaleItem where
  id : String
  productId : String
  quantity : ℚ
  price : ℚ
deriving DecidableEq

/-- A persisted sale (`Sale` row with its items). -/
structure Sale where
  receiptNumber : String
  subtotal : ℚ
  discount : ℚ
  paymentMethod : String
  items : List SaleItem
deriving DecidableEq

/-- One entry of the request's `items` array after JS coercion
(`saleItemId` string or absent, `productId` string, numeric quantity). -/
structure ReverseItemRequest where
  saleItemId : Option String
  productId : String
  quantity : ℚ
deriving DecidableEq

/-- `receiptNumber.startsWith('REV-')`. -/
def startsWithREV (s : String) : Bool :=
  match s.data with
  | 'R' :: 'E' :: 'V' :: '-' :: _ => true
  | _ => false

/-- JavaScript `rest.split('-')` on a character list. -/
def jsSplitDash : List Char → List (List Char)
  | [] => [[]]
  | c :: cs =>
    if c = '-' then [] :: jsSplitDash cs
    else
      match jsSplitDash cs with
      | [] => [[c]]
      | t :: ts => (c :: t) :: ts

/-- `parseSaleIdFromReversalReceipt` from the route: strip the `REV-`
marker, split the remainder on `-`, return the first component (or
`null` when it is empty / the marker is absent). -/
def parseSaleIdFromReversalReceipt (receiptNumber : String) : Option String :=
  if startsWithREV receiptNumber then
    let rest := receiptNumber.data.drop 4
    match jsSplitDash rest with
    | [] => none
    | saleId :: _ => if saleId = [] then none else some (String.mk saleId)
  else none

/-- The receipt number generated for a reversal:
`` `REV-${id}-${Date.now()}-${Math.floor(Math.random() * 1000)}` ``. -/
def mkReversalReceipt (saleId : String) (millis rand : ℕ) : String :=
  "REV-" ++ saleId ++ "-" ++ toString millis ++ "-" ++ toString rand

/-! ## The "previously reversed quantity" map (route lines 103–118) -/

/-- Pointwise update of a function-modelled `Map` keyed by price tier. -/
def updKey (m : Key → ℚ) (k : Key) (v : ℚ) : Key → ℚ :=
  fun k2 => if k2 = k then v else m k2

/-- Pointwise update of a function-modelled `Map` keyed by product id. -/
def updStr (m : String → ℚ) (s : String) (v : ℚ) : String → ℚ :=
  fun s2 => if s2 = s then v else m s2

/-- The price-tier key of a persisted sale item:
`` `${item.productId}:${toCents(Number(item.price))}` ``. -/
def itemKey (si : SaleItem) : Key := (si.productId, toCents si.price)

/-- One step of building `reversedQuantityByKey`: skip a zero quantity,
skip a non-positive reversed amount (`reversed = -quantity`), otherwise
accumulate `reversed` at the item's price tier. -/
def addRevItem (m : Key → ℚ) (it : SaleItem) : Key → ℚ :=
  let quantity := it.quantity
  if quantity = 0 then m
  else if -quantity ≤ 0 then m
  else updKey m (itemKey it) (m (itemKey it) + -quantity)

/-- `reversedQuantityByKey`: total already-reversed quantity at each
price tier, accumulated over every item of every prior reversal sale. -/
def reversedByKey (existingReversals : List Sale) : Key → ℚ :=
  existingReversals.foldl (fun m rev => rev.items.foldl addRevItem m) (fun _ => 0)

/-! ## The requested-quantity maps (route lines 120–135) -/

/-- One accumulation step of `requestedQuantityBySaleItemId`. -/
def reqBySaleItemStep (m : String → Option ℚ) (it : ReverseItemRequest) : String → Option ℚ :=
  match it.saleItemId with
  | some sid => fun s => if s = sid then some ((m s).getD 0 + it.quantity) else m s
  | none => m

/-- `requestedQuantityBySaleItemId`: accumulated quantity for each
explicitly named sale item; `none` models a key the `Map` does not hold. -/
def reqBySaleItem (requestedItems : List ReverseItemRequest) : String → Option ℚ :=
  requestedItems.foldl reqBySaleItemStep (fun _ => none)

/-- One accumulation step of `requestedQuantityByProductId`. -/
def reqByProductStep (m : String → ℚ) (it : ReverseItemRequest) : String → ℚ :=
  match it.saleItemId with
  | some _ => m
  | none => fun p => if p = it.productId then m p + it.quantity else m p

/-- `requestedQuantityByProductId`: accumulated quantity for each
product-keyed request entry. -/
def reqByProduct (requestedItems : List ReverseItemRequest) : String → ℚ :=
  requestedItems.foldl reqByProductStep (fun _ => 0)

/-- The key set of `requestedQuantityByProductId` (the product ids of the
product-keyed request entries); `Map.has` on that map holds exactly for
these ids, and `Map.set` during the loop never adds a key. -/
def reqProductIds (requestedItems : List ReverseItemRequest) : List String :=
  (requestedItems.filter (fun it => it.saleItemId = none)).map (·.productId)

/-! ## The per-line allocation loop (route lines 137–191) -/

/-- A resolved reversal line (`linesToReverse` entry). -/
structure RevLine where
  productId : String
  quantityToReverse : ℚ
  unitPrice : ℚ
deriving DecidableEq

/-- The price tier a resolved line belongs to. -/
def lineKey (l : RevLine) : Key := (l.productId, toCents l.unitPrice)

/-- The loop state: `remainingRequestedByProductId`,
`remainingReversedToAllocateByKey` and `linesToReverse`. -/
structure LoopState where
  remReq : String → ℚ
  remRev : Key → ℚ
  lines : List RevLine

/-- Errors thrown or returned by the reversal route. -/
inductive AllocError
  | saleIdMissing
  | userIdRequired
  | invalidPaymentMethod
  | selectAtLeastOne
  | saleNotFound
  | cannotReverseReversal
  | exceedsRemaining
  | notPartOfSale
  | nothingLeft
  | missingStock
deriving DecidableEq

/-- Decidable equality for transaction results, used to evaluate the
model on concrete inputs. -/
instance {ε α : Type} [DecidableEq ε] [DecidableEq α] : DecidableEq (Except ε α) := fun a b =>
  match a, b with
  | .error e1, .error e2 =>
    if h : e1 = e2 then .isTrue (by rw [h]) else .isFalse (by intro hh; cases hh; exact h rfl)
  | .ok v1, .ok v2 =>
    if h : v1 = v2 then .isTrue (by rw [h]) else .isFalse (by intro hh; cases hh; exact h rfl)
  | .error _, .ok _ => .isFalse (by intro hh; cases hh)
  | .ok _, .error _ => .isFalse (by intro hh; cases hh)

/-- `quantityToReverse` resolution (route lines 165–172): an explicit
`saleItemId` request is taken verbatim; a product-keyed request is
clamped to the line's remaining; with no request the line's full
remaining is reversed on a full reversal and skipped otherwise. -/
def resolveQuantity (itemsProvided : Bool) (requestedForLine requestedForProduct : Option ℚ)
    (remaining : ℚ) : ℚ :=
  match requestedForLine with
  | some q => q
  | none =>
    match requestedForProduct with
    | some q => min q remaining
    | none => if itemsProvided then 0 else remaining

/-- `alreadyReversedForLine` (route line 153): the part of the tier's
still-unallocated prior reversals consumed by this line. -/
def alreadyOf (st : LoopState) (si : SaleItem) : ℚ :=
  min (max (st.remRev (itemKey si)) 0) (max si.quantity 0)

/-- `remaining` (route line 155): the line's still-reversible quantity. -/
def remainingOf (st : LoopState) (si : SaleItem) : ℚ :=
  si.quantity - alreadyOf st si

/-- `requestedForProduct` (route lines 161–163): present exactly when the
product is a key of `remainingRequestedByProductId`. -/
def requestedForProductOf (reqPids : List String) (st : LoopState) (si : SaleItem) : Option ℚ :=
  if si.productId ∈ reqPids then some (st.remReq si.productId) else none

/-- The resolved `quantityToReverse` of one line. -/
def quantityFor (itemsProvided : Bool) (reqItem : String → Option ℚ) (reqPids : List String)
    (st : LoopState) (si : SaleItem) : ℚ :=
  resolveQuantity itemsProvided (reqItem si.id) (requestedForProductOf reqPids st si)
    (remainingOf st si)

/-- `remainingReversedToAllocateByKey.set(key, ...)` (route line 154). -/
def consumeRev (st : LoopState) (si : SaleItem) : Key → ℚ :=
  updKey st.remRev (itemKey si) (st.remRev (itemKey si) - alreadyOf st si)

/-- The `remainingRequestedByProductId.set(...)` of route lines 182–184,
applied only for a product-keyed request on a line with no explicit
`saleItemId` request. -/
def stepRemReq (reqItem : String → Option ℚ) (reqPids : List String) (st : LoopState)
    (si : SaleItem) (quantityToReverse : ℚ) : String → ℚ :=
  if (requestedForProductOf reqPids st si).isSome && (reqItem si.id).isNone then
    updStr st.remReq si.productId
      ((requestedForProductOf reqPids st si).getD 0 - quantityToReverse)
  else st.remReq

/-- One iteration of the `for (const saleItem of sale.items)` loop
(route lines 149–191). -/
def processItem (itemsProvided : Bool) (reqItem : String → Option ℚ) (reqPids : List String)
    (st : LoopState) (si : SaleItem) : Except AllocError LoopState :=
  let quantityToReverse := quantityFor itemsProvided reqItem reqPids st si
  if quantityToReverse ≤ 0 then
    .ok { st with remRev := consumeRev st si }
  else if remainingOf st si < quantityToReverse then
    .error .exceedsRemaining
  else
    .ok { remReq := stepRemReq reqItem reqPids st si quantityToReverse
          remRev := consumeRev st si
          lines := st.lines ++
            [{ productId := si.productId, quantityToReverse := quantityToReverse,
               unitPrice := si.price }] }

/-- The loop itself, with early exit on a thrown error. -/
def runLoop (itemsProvided : Bool) (reqItem : String → Option ℚ) (reqPids : List String) :
    LoopState → List SaleItem → Except AllocError LoopState
  | st, [] => .ok st
  | st, si :: rest =>
    match processItem itemsProvided reqItem reqPids st si with
    | .error e => .error e
    | .ok st2 => runLoop itemsProvided reqItem reqPids st2 rest

/-- The loop applied to the sale's items from the initial state. -/
def loopResult (sale : Sale) (existingReversals : List Sale) (itemsProvided : Bool)
    (requestedItems : List ReverseItemRequest) : Except AllocError LoopState :=
  runLoop itemsProvided (reqBySaleItem requestedItems) (reqProductIds requestedItems)
    { remReq := reqByProduct requestedItems, remRev := reversedByKey existingReversals,
      lines := [] }
    sale.items

/-- The membership validation of route lines 193–205: every request entry
must name a sale item (by id) or a product present on the sale. -/
def requestedItemsPartOfSale (sale : Sale) (requestedItems : List ReverseItemRequest) : Bool :=
  requestedItems.all fun it =>
    match it.saleItemId with
    | some sid => sale.items.any (fun si => si.id = sid)
    | none => sale.items.any (fun si => si.productId = it.productId)

/-! ## Reversal payload and totals (route lines 218–240) -/

/-- A created reversal `SaleItem` payload row. -/
structure ReversalItem where
  productId : String
  quantity : ℚ
  price : ℚ
  total : ℚ
deriving DecidableEq

/-- `lineSubtotalCents`: `Math.round(unitPriceCents * quantityToReverse)`. -/
def lineSubtotalCents (l : RevLine) : ℤ :=
  jsRound ((toCents l.unitPrice : ℚ) * l.quantityToReverse)

/-- `lineDiscountCents`: proportional share when the original subtotal
(in cents) is positive, else 0. -/
def lineDiscountCents (originalSubtotalCents originalDiscountCents lsc : ℤ) : ℤ :=
  if 0 < originalSubtotalCents then
    jsRound (((lsc * originalDiscountCents : ℤ) : ℚ) / (originalSubtotalCents : ℚ))
  else 0

/-- The allocator's full output: the resolved lines, the reversal
`SaleItem` payload, the per-line cents values and the aggregate
subtotal / discount / total of the reversal sale. -/
structure AllocOutput where
  lines : List RevLine
  items : List ReversalItem
  lineSubCents : List ℤ
  lineDiscCents : List ℤ
  subtotal : ℚ
  discount : ℚ
  totalAmount : ℚ
deriving DecidableEq

/-- Payload construction from the resolved lines. -/
def mkPayload (sale : Sale) (lines : List RevLine) : AllocOutput :=
  let originalSubtotalCents := toCents sale.subtotal
  let originalDiscountCents := toCents sale.discount
  let subCs := lines.map lineSubtotalCents
  let discCs := subCs.map (lineDiscountCents originalSubtotalCents originalDiscountCents)
  let reversedSubtotalCents := subCs.sum
  let reversedDiscountCents := discCs.sum
  { lines := lines
    items := lines.map fun l =>
      { productId := l.productId, quantity := -l.quantityToReverse,
        price := centsToAmount (toCents l.unitPrice),
        total := centsToAmount (-(lineSubtotalCents l)) }
    lineSubCents := subCs
    lineDiscCents := discCs
    subtotal := centsToAmount (-reversedSubtotalCents)
    discount := centsToAmount (-reversedDiscountCents)
    totalAmount := centsToAmount (-(reversedSubtotalCents - reversedDiscountCents)) }

/-- The reversal allocator: the body of the transaction from the
reversal-sale guard through payload construction (route lines 92–240). -/
def allocate (sale : Sale) (existingReversals : List Sale) (itemsProvided : Bool)
    (requestedItems : List ReverseItemRequest) : Except AllocError AllocOutput :=
  if startsWithREV sale.receiptNumber then .error .cannotReverseReversal
  else
    match loopResult sale existingReversals itemsProvided requestedItems with
    | .error e => .error e
    | .ok st =>
      if !requestedItems.isEmpty && !requestedItemsPartOfSale sale requestedItems then
        .error .notPartOfSale
      else if !requestedItems.isEmpty &&
          (reqProductIds requestedItems).any (fun pid => decide (0 < st.remReq pid)) then
        .error .exceedsRemaining
      else if st.lines.isEmpty then .error .nothingLeft
      else .ok (mkPayload sale st.lines)

/-! ## The transaction coordinator (route lines 242–301) -/

/-- `incrementByProductId`: stock restored per product, totalled over the
resolved lines. -/
def incrementByProductId (lines : List RevLine) : String → ℚ :=
  lines.foldl (fun m l => updStr m l.productId (m l.productId + l.quantityToReverse)) (fun _ => 0)

/-- First-occurrence deduplication, matching the key order of a
JavaScript `Map` built by insertion. -/
def firstDedup : List String → List String
  | [] => []
  | x :: xs => x :: (firstDedup xs).filter (fun y => y ≠ x)

/-- The key set of `incrementByProductId`, in first-insertion order. -/
def incrementPids (lines : List RevLine) : List String :=
  firstDedup (lines.map (·.productId))

/-- A `StockAdjustment` ledger row as stored (the `DECIMAL(10,2)` columns
round each stored value to 2 decimals). -/
structure StockAdjRow where
  productId : String
  quantityBefore : ℚ
  quantityAfter : ℚ
  quantityChange : ℚ
deriving DecidableEq

/-- The ledger row appended by the reversal path (route lines 279–297):
`quantityChange = Number(quantity.toFixed(2))`,
`quantityAfter = Number((quantityBefore + quantityChange).toFixed(2))`. -/
def mkStockRow (pid : String) (quantityBefore qty : ℚ) : StockAdjRow :=
  let quantityChange := round2 qty
  let quantityAfter := round2 (quantityBefore + quantityChange)
  { productId := pid, quantityBefore := pgRound2 quantityBefore,
    quantityAfter := pgRound2 quantityAfter, quantityChange := pgRound2 quantityChange }

/-- Everything the successful transaction persists and returns. -/
structure ReversalRecord where
  receiptNumber : String
  userId : String
  paymentMethod : String
  subtotal : ℚ
  discount : ℚ
  totalAmount : ℚ
  items : List ReversalItem
  ledger : List StockAdjRow
  stockAfter : List (String × ℚ)
deriving DecidableEq

/-- The per-product `tx.stock.findUnique` lookups of route lines
250–257: every product needs an existing `Stock` row, else the
transaction throws the missing-stock error. -/
def lookupStocks (stockTable : String → Option ℚ) : List String → Option (List (String × ℚ))
  | [] => some []
  | pid :: rest =>
    match stockTable pid with
    | none => none
    | some q =>
      match lookupStocks stockTable rest with
      | none => none
      | some l => some ((pid, q) :: l)

/-- The whole transaction body: allocator, then the per-product stock
lookups (failing when a `Stock` row is missing), then the created
reversal sale, the stock increments and the appended ledger rows. -/
def reverseSaleTx (saleId : String) (sale : Sale) (existingReversals : List Sale)
    (itemsProvided : Bool) (requestedItems : List ReverseItemRequest)
    (normalizedPaymentMethod : Option String) (userId : String) (millis rand : ℕ)
    (stockTable : String → Option ℚ) : Except AllocError ReversalRecord :=
  match allocate sale existingReversals itemsProvided requestedItems with
  | .error e => .error e
  | .ok out =>
    match lookupStocks stockTable (incrementPids out.lines) with
    | none => .error .missingStock
    | some stockBefore =>
      .ok { receiptNumber := mkReversalReceipt saleId millis rand
            userId := userId
            paymentMethod := normalizedPaymentMethod.getD sale.paymentMethod
            subtotal := out.subtotal
            discount := out.discount
            totalAmount := out.totalAmount
            items := out.items
            ledger := stockBefore.map fun pq =>
              mkStockRow pq.1 pq.2 (incrementByProductId out.lines pq.1)
            stockAfter := stockBefore.map fun pq =>
              (pq.1, pgRound2 (pq.2 + incrementByProductId out.lines pq.1)) }

/-! ## Request validation before the transaction (route lines 44–79) -/

/-- The enumerated payment methods (`PaymentMethod` enum of the schema). -/
def paymentMethods : List String := ["CASH", "MOBILE_MONEY", "CARD", "TRANSFER"]

/-- JavaScript `String.prototype.trim` on the character list (strip
leading and trailing whitespace). -/
def jsTrim (s : String) : String :=
  String.mk (((s.data.dropWhile Char.isWhitespace).reverse.dropWhile Char.isWhitespace).reverse)

/-- JavaScript `String.prototype.toUpperCase` (ASCII uppercasing). -/
def jsToUpper (s : String) : String :=
  String.mk (s.data.map Char.toUpper)

/-- Payment-method normalization (route lines 57–64): absent, `null` or
blank stays unset; otherwise the uppercased value must be enumerated. -/
def normalizePaymentMethod (paymentMethod : Option String) : Except AllocError (Option String) :=
  match paymentMethod with
  | none => .ok none
  | some s =>
    if (jsTrim s).length = 0 then .ok none
    else if jsToUpper s ∈ paymentMethods then .ok (some (jsToUpper s))
    else .error .invalidPaymentMethod

/-- Coercion of one raw `items` entry (route lines 69–73): a falsy
`saleItemId` becomes absent. -/
def normalizeRawItem (it : ReverseItemRequest) : ReverseItemRequest :=
  { saleItemId :=
      match it.saleItemId with
      | some s => if s = "" then none else some s
      | none => none
    productId := it.productId, quantity := it.quantity }

/-- `items` preprocessing (route lines 66–79): `none` models an absent
field, `some l` a provided array; entries keep only a truthy product id
and a finite positive quantity, and a provided array that filters to
nothing is rejected. -/
def preprocessItems (itemsField : Option (List ReverseItemRequest)) :
    Except AllocError (Bool × List ReverseItemRequest) :=
  let itemsProvided := itemsField.isSome
  let requestedItems := ((itemsField.getD []).map normalizeRawItem).filter fun it =>
    decide (it.productId ≠ "") && decide (0 < it.quantity)
  if itemsProvided && requestedItems.isEmpty then .error .selectAtLeastOne
  else .ok (itemsProvided, requestedItems)

/-- The request body after JSON parsing, restricted to the fields the
route reads. -/
structure RequestBody where
  userId : Option String
  paymentMethod : Option String
  items : Option (List ReverseItemRequest)

/-- The whole `POST` handler on a parsed body: the early validations in
source order, then the transaction (`findSale` models the
`tx.sale.findUnique` result, `existingReversals` the reversal query). -/
def handleReverseRequest (saleId : String) (body : RequestBody) (findSale : Option Sale)
    (existingReversals : List Sale) (millis rand : ℕ) (stockTable : String → Option ℚ) :
    Except AllocError ReversalRecord :=
  if saleId = "" then .error .saleIdMissing
  else if body.userId.getD "" = "" then .error .userIdRequired
  else
    match normalizePaymentMethod body.paymentMethod with
    | .error e => .error e
    | .ok normalizedPaymentMethod =>
      match preprocessItems body.items with
      | .error e => .error e
      | .ok (itemsProvided, requestedItems) =>
        match findSale with
        | none => .error .saleNotFound
        | some sale =>
          reverseSaleTx saleId sale existingReversals itemsProvided requestedItems
            normalizedPaymentMethod (body.userId.getD "") millis rand stockTable

/-! ## Error surfacing (route lines 340–357) -/

/-- The human-readable message of each error. -/
def errorMessage : AllocError → String
  | .saleIdMissing => "Sale id is required."
  | .userIdRequired => "userId is required."
  | .invalidPaymentMethod => "paymentMethod is invalid."
  | .selectAtLeastOne => "Select at least one item to reverse."
  | .saleNotFound => "Sale not found."
  | .cannotReverseReversal => "Cannot reverse a reversal sale."
  | .exceedsRemaining => "Requested reversal quantity exceeds remaining sold quantity."
  | .notPartOfSale => "Requested reversal item is not part of the sale."
  | .nothingLeft => "There is nothing left to reverse for this sale."
  | .missingStock => "Stock record is missing for a product in this sale."

/-- `pattern` matches `s` starting at its head. -/
def matchesAt : List Char → List Char → Bool
  | [], _ => true
  | _ :: _, [] => false
  | p :: ps, c :: cs => p == c && matchesAt ps cs

/-- JavaScript `s.includes(pattern)` on character lists. -/
def hasSub (pattern : List Char) : List Char → Bool
  | [] => matchesAt pattern []
  | c :: cs => matchesAt pattern (c :: cs) || hasSub pattern cs

/-- The closed set of substrings the catch block recognizes as
client-facing validation failures. -/
def knownTxMessages : List String :=
  ["Sale not found", "Cannot reverse a reversal sale", "nothing left to reverse",
   "exceeds remaining", "not part of the sale", "Stock record is missing"]

/-- The errors returned directly with status 400 before the transaction
starts (route lines 49–79). -/
def isEarlyValidationError : AllocError → Bool
  | .saleIdMissing => true
  | .userIdRequired => true
  | .invalidPaymentMethod => true
  | .selectAtLeastOne => true
  | _ => false

/-- The HTTP status an error surfaces with: early validations return 400
directly; a thrown error whose nonempty message contains one of the
known substrings maps to 400 in the catch block, anything else to 500. -/
def statusOfError (e : AllocError) : ℕ :=
  if isEarlyValidationError e then 400
  else if !(errorMessage e).isEmpty &&
      knownTxMessages.any (fun p => hasSub p.data (errorMessage e).data) then 400
  else 500

/-! ## The direct stock-edit ledger path
(`src/app/api/products/[id]/route.ts`, `PATCH`, lines 93–127) -/

/-- The ledger row appended by a direct stock edit, if any:
`quantityBefore = Number(existingStock?.quantity ?? 0)`,
`quantityAfter = Number(stock)`,
`quantityChange = Number((quantityAfter - quantityBefore).toFixed(2))`,
written only when the change is nonzero. -/
def patchLedgerRow (pid : String) (existingStock : Option ℚ) (newStock : ℚ) :
    Option StockAdjRow :=
  let quantityBefore := existingStock.getD 0
  let quantityAfter := newStock
  let quantityChange := round2 (quantityAfter - quantityBefore)
  if quantityChange ≠ 0 then
    some { productId := pid, quantityBefore := pgRound2 quantityBefore,
           quantityAfter := pgRound2 quantityAfter, quantityChange := pgRound2 quantityChange }
  else none

/-! ## Derived quantity accounting used by the invariants -/

/-- Sold quantity contributed by one sale item to a price tier. -/
def soldContrib (k : Key) (si : SaleItem) : ℚ :=
  if itemKey si = k then si.quantity else 0

/-- Sold quantity at a price tier over a list of sale items. -/
def soldAtKey (k : Key) (items : List SaleItem) : ℚ :=
  (items.map (soldContrib k)).sum

/-- Sold quantity of a sale at a price tier. -/
def soldByKey (sale : Sale) (k : Key) : ℚ := soldAtKey k sale.items

/-- Allocated (to-reverse) quantity contributed by one resolved line to a
price tier. -/
def allocContrib (k : Key) (l : RevLine) : ℚ :=
  if lineKey l = k then l.quantityToReverse else 0

/-- Allocated quantity at a price tier over a list of resolved lines. -/
def allocAtKey (k : Key) (lines : List RevLine) : ℚ :=
  (lines.map (allocContrib k)).sum

/-- The amount one persisted item adds to `reversedQuantityByKey` at a
tier (zero unless its quantity is strictly negative and the tier is its
own). -/
def revContrib (it : SaleItem) (k : Key) : ℚ :=
  if it.quantity = 0 then 0
  else if -it.quantity ≤ 0 then 0
  else if k = itemKey it then -it.quantity else 0

/-- Total `reversedQuantityByKey` contribution of a list of items. -/
def sumRevContrib (items : List SaleItem) (k : Key) : ℚ :=
  (items.map (fun it => revContrib it k)).sum

/-! ## Reversal sequences (for the conservation invariant) -/

/-- The reversal `Sale` row created by a successful operation (route
lines 261–275), as later requests re-read it: receipt carrying the
original sale id, totals from the allocator, the payload items (their
fresh row ids are irrelevant to quantity accounting and modelled as
empty). The timestamp/random suffix and any payment override do not
affect quantities, so representative values are used. -/
def reversalSaleOf (saleId : String) (sale : Sale) (out : AllocOutput) : Sale :=
  { receiptNumber := mkReversalReceipt saleId 0 0
    subtotal := out.subtotal
    discount := out.discount
    paymentMethod := sale.paymentMethod
    items := out.items.map fun it =>
      { id := "", productId := it.productId, quantity := it.quantity, price := it.price } }

/-- Run a sequence of reversal requests against one original sale, each
successful reversal joining the `existingReversals` the next one sees. -/
def runReversals (sale : Sale) (saleId : String) :
    List Sale → List (Bool × List ReverseItemRequest) → Except AllocError (List Sale)
  | revs, [] => .ok revs
  | revs, (itemsProvided, requestedItems) :: rest =>
    match allocate sale revs itemsProvided requestedItems with
    | .error e => .error e
    | .ok out => runReversals sale saleId (revs ++ [reversalSaleOf saleId sale out]) rest

/-! ## Concrete fixtures (the worked scenario of the specification and
the inputs used by witnesses and counterexamples) -/

/-- The specification's scenario sale: 10 units of product `p` at 2.00,
discount 1.00, subtotal 20.00. -/
def scenarioSale : Sale :=
  { receiptNumber := "R1", subtotal := 20, discount := 1, paymentMethod := "CASH",
    items := [{ id := "i1", productId := "p", quantity := 10, price := 2 }] }

/-- A persisted reversal sale that exhausts `scenarioSale` (all 10 units
already reversed at tier `(p, 200)`). -/
def scenarioFullReversal : Sale :=
  { receiptNumber := "REV-s1-0-0", subtotal := -20, discount := -1, paymentMethod := "CASH",
    items := [{ id := "r1", productId := "p", quantity := -10, price := 2 }] }

/-- A degenerate sale with a negative stored subtotal, exercising the
boundary between "nonzero" and "positive" in the discount rule. -/
def negativeSubtotalSale : Sale :=
  { receiptNumber := "R2", subtotal := -1, discount := 1, paymentMethod := "CASH",
    items := [{ id := "i1", productId := "p", quantity := 1, price := -1 }] }

/-! ## Arithmetic helper lemmas -/

theorem jsRound_intCast (n : ℤ) : jsRound (n : ℚ) = n := by
  unfold jsRound
  rw [Int.floor_int_add]
  norm_num

theorem toCents_centsToAmount (c : ℤ) : toCents (centsToAmount c) = c := by
  unfold toCents centsToAmount
  rw [div_mul_cancel₀ _ (by norm_num : (100 : ℚ) ≠ 0)]
  exact jsRound_intCast c

theorem round2_cents (n : ℤ) : round2 ((n : ℚ) / 100) = (n : ℚ) / 100 := by
  unfold round2
  rw [div_mul_cancel₀ _ (by norm_num : (100 : ℚ) ≠ 0), jsRound_intCast]

theorem jsRound_sub_int (q : ℚ) (n : ℤ) : jsRound (q - (n : ℚ)) = jsRound q - n := by
  unfold jsRound
  rw [sub_add_eq_add_sub, Int.floor_sub_int]

theorem round2_sub_cents (x : ℚ) (n : ℤ) :
    round2 (x - (n : ℚ) / 100) = round2 x - (n : ℚ) / 100 := by
  unfold round2
  rw [sub_mul, div_mul_cancel₀ _ (by norm_num : (100 : ℚ) ≠ 0), jsRound_sub_int,
    Int.cast_sub, sub_div]

theorem max_sub_chain {a b c : ℚ} (hc : 0 ≤ c) (h : b ≤ max a 0) :
    max (b - c) 0 ≤ max (a - c) 0 := by
  apply max_le _ (le_max_right _ _)
  rcases le_total a 0 with ha | ha
  · have hb : b ≤ 0 := le_trans h (by simp [max_eq_right ha])
    calc b - c ≤ 0 := by linarith
    _ ≤ max (a - c) 0 := le_max_right _ _
  · have hb : b ≤ a := le_trans h (by simp [max_eq_left ha])
    calc b - c ≤ a - c := by linarith
    _ ≤ max (a - c) 0 := le_max_left _ _

theorem max_split_sum {r s t : ℚ} (hr : 0 ≤ r) (hs : 0 ≤ s) (ht : 0 ≤ t) :
    max (s - r) 0 + max (t - max (r - s) 0) 0 = max (s + t - r) 0 := by
  rcases le_total r s with h | h
  · rw [max_eq_left (by linarith : (0 : ℚ) ≤ s - r),
      max_eq_right (by linarith : r - s ≤ (0 : ℚ)), sub_zero, max_eq_left ht,
      max_eq_left (by linarith : (0 : ℚ) ≤ s + t - r)]
    ring
  · rw [max_eq_right (by linarith : s - r ≤ (0 : ℚ)),
      max_eq_left (by linarith : (0 : ℚ) ≤ r - s), zero_add,
      show s + t - r = t - (r - s) from by ring]

/-! ## Characterizations of the accumulated maps -/

theorem addRevItem_apply (m : Key → ℚ) (it : SaleItem) (k : Key) :
    addRevItem m it k = m k + revContrib it k := by
  unfold addRevItem revContrib updKey
  split_ifs with h1 h2 h3 <;> simp_all

theorem foldl_addRevItem (items : List SaleItem) (m : Key → ℚ) (k : Key) :
    (items.foldl addRevItem m) k = m k + sumRevContrib items k := by
  induction items generalizing m with
  | nil => simp [sumRevContrib]
  | cons it rest ih =>
    simp only [List.foldl_cons, ih, addRevItem_apply, sumRevContrib, List.map_cons,
      List.sum_cons]
    ring

theorem reversedByKey_aux (revs : List Sale) (m : Key → ℚ) (k : Key) :
    (revs.foldl (fun m rev => rev.items.foldl addRevItem m) m) k =
      m k + (revs.map (fun s => sumRevContrib s.items k)).sum := by
  induction revs generalizing m with
  | nil => simp
  | cons s rest ih =>
    simp only [List.foldl_cons, ih, foldl_addRevItem, List.map_cons, List.sum_cons]
    ring

theorem reversedByKey_eq (revs : List Sale) (k : Key) :
    reversedByKey revs k = (revs.map (fun s => sumRevContrib s.items k)).sum := by
  unfold reversedByKey
  rw [reversedByKey_aux, zero_add]

theorem reversedByKey_append (revs : List Sale) (s : Sale) (k : Key) :
    reversedByKey (revs ++ [s]) k = reversedByKey revs k + sumRevContrib s.items k := by
  simp [reversedByKey_eq]

theorem revContrib_nonneg (it : SaleItem) (k : Key) : 0 ≤ revContrib it k := by
  unfold revContrib
  split_ifs with h1 h2 h3 <;> linarith

theorem sumRevContrib_nonneg (items : List SaleItem) (k : Key) : 0 ≤ sumRevContrib items k := by
  unfold sumRevContrib
  exact List.sum_nonneg fun x hx => by
    obtain ⟨it, _, rfl⟩ := List.mem_map.mp hx
    exact revContrib_nonneg it k

theorem reversedByKey_nonneg (revs : List Sale) (k : Key) : 0 ≤ reversedByKey revs k := by
  rw [reversedByKey_eq]
  exact List.sum_nonneg fun x hx => by
    obtain ⟨s, _, rfl⟩ := List.mem_map.mp hx
    exact sumRevContrib_nonneg s.items k

theorem soldAtKey_nil (k : Key) : soldAtKey k [] = 0 := rfl

theorem soldAtKey_cons (k : Key) (si : SaleItem) (rest : List SaleItem) :
    soldAtKey k (si :: rest) = soldContrib k si + soldAtKey k rest := by
  simp [soldAtKey]

theorem soldContrib_nonneg (k : Key) (si : SaleItem) (h : 0 ≤ si.quantity) :
    0 ≤ soldContrib k si := by
  unfold soldContrib
  split <;> simp [h]

theorem soldAtKey_nonneg (k : Key) (items : List SaleItem)
    (h : ∀ si ∈ items, 0 ≤ si.quantity) : 0 ≤ soldAtKey k items := by
  unfold soldAtKey
  exact List.sum_nonneg fun x hx => by
    obtain ⟨si, hsi, rfl⟩ := List.mem_map.mp hx
    exact soldContrib_nonneg k si (h si hsi)

theorem allocAtKey_nil (k : Key) : allocAtKey k [] = 0 := rfl

theorem allocAtKey_append (k : Key) (xs ys : List RevLine) :
    allocAtKey k (xs ++ ys) = allocAtKey k xs + allocAtKey k ys := by
  simp [allocAtKey]

theorem allocAtKey_single (k : Key) (l : RevLine) :
    allocAtKey k [l] = allocContrib k l := by
  simp [allocAtKey]

/-! ## Loop lemmas -/

theorem processItem_error (ip : Bool) (ri : String → Option ℚ) (rp : List String)
    (st : LoopState) (si : SaleItem) (e : AllocError)
    (h : processItem ip ri rp st si = .error e) : e = .exceedsRemaining := by
  simp only [processItem] at h
  split_ifs at h <;> simp_all


theorem alreadyOf_nonneg (st : LoopState) (si : SaleItem) : 0 ≤ alreadyOf st si := by
  unfold alreadyOf
  exact le_min (le_max_right _ _) (le_max_right _ _)

theorem alreadyOf_le (st : LoopState) (si : SaleItem) (hq : 0 ≤ si.quantity) :
    alreadyOf st si ≤ si.quantity := by
  unfold alreadyOf
  rw [max_eq_left hq]
  exact min_le_right _ _

theorem consumeRev_apply (st : LoopState) (si : SaleItem) (k : Key) :
    consumeRev st si k =
      if k = itemKey si then st.remRev (itemKey si) - alreadyOf st si else st.remRev k := rfl

theorem consumeRev_le_max (st : LoopState) (si : SaleItem) (k : Key) (hq : 0 ≤ si.quantity) :
    consumeRev st si k ≤ max (st.remRev k - soldContrib k si) 0 := by
  rw [consumeRev_apply]
  by_cases hk : k = itemKey si
  · subst hk
    rw [show soldContrib (itemKey si) si = si.quantity from by
      unfold soldContrib; rw [if_pos rfl]]
    unfold alreadyOf
    rw [max_eq_left hq]
    rcases le_total (st.remRev (itemKey si)) 0 with h0 | h0
    · rw [if_pos rfl, max_eq_right h0, min_eq_left hq]
      calc st.remRev (itemKey si) - 0 = st.remRev (itemKey si) := by ring
      _ ≤ 0 := h0
      _ ≤ max (st.remRev (itemKey si) - si.quantity) 0 := le_max_right _ _
    · rw [if_pos rfl, max_eq_left h0]
      rcases le_total (st.remRev (itemKey si)) si.quantity with h1 | h1
      · rw [min_eq_left h1]
        calc st.remRev (itemKey si) - st.remRev (itemKey si) = 0 := by ring
        _ ≤ max (st.remRev (itemKey si) - si.quantity) 0 := le_max_right _ _
      · rw [min_eq_right h1]
        exact le_max_left _ _
  · rw [if_neg hk, show soldContrib k si = 0 from by
      unfold soldContrib; rw [if_neg (fun hh => hk hh.symm)], sub_zero]
    exact le_max_left _ _

theorem consumeRev_diff (st : LoopState) (si : SaleItem) (k : Key) (hq : 0 ≤ si.quantity) :
    0 ≤ st.remRev k - consumeRev st si k ∧
      st.remRev k - consumeRev st si k ≤ soldContrib k si := by
  rw [consumeRev_apply]
  by_cases hk : k = itemKey si
  · subst hk
    rw [if_pos rfl, show soldContrib (itemKey si) si = si.quantity from by
      unfold soldContrib; rw [if_pos rfl]]
    have h1 := alreadyOf_nonneg st si
    have h2 := alreadyOf_le st si hq
    constructor <;> linarith
  · rw [if_neg hk, show soldContrib k si = 0 from by
      unfold soldContrib; rw [if_neg (fun hh => hk hh.symm)]]
    constructor <;> linarith

theorem processItem_ok_shape (ip : Bool) (ri : String → Option ℚ) (rp : List String)
    (st st' : LoopState) (si : SaleItem)
    (h : processItem ip ri rp st si = .ok st') :
    st'.remRev = consumeRev st si ∧
      (st'.lines = st.lines ∨
        ∃ q', 0 < q' ∧ q' ≤ remainingOf st si ∧
          st'.lines = st.lines ++ [(⟨si.productId, q', si.price⟩ : RevLine)]) := by
  simp only [processItem] at h
  split_ifs at h with h1 h2
  · injection h with h
    subst h
    exact ⟨rfl, Or.inl rfl⟩
  · injection h with h
    subst h
    push_neg at h1 h2
    exact ⟨rfl, Or.inr ⟨_, h1, h2, rfl⟩⟩

theorem processItem_ok_bound (ip : Bool) (ri : String → Option ℚ) (rp : List String)
    (st st' : LoopState) (si : SaleItem) (k : Key) (hq : 0 ≤ si.quantity)
    (h : processItem ip ri rp st si = .ok st') :
    allocAtKey k st'.lines + (st.remRev k - st'.remRev k) ≤
      allocAtKey k st.lines + soldContrib k si ∧
    st'.remRev k ≤ max (st.remRev k - soldContrib k si) 0 := by
  obtain ⟨hrev, hlines⟩ := processItem_ok_shape ip ri rp st st' si h
  have hd := consumeRev_diff st si k hq
  have hm := consumeRev_le_max st si k hq
  rw [hrev]
  refine ⟨?_, hm⟩
  rcases hlines with hl | ⟨q', hpos, hle, hl⟩
  · rw [hl]
    linarith [hd.2]
  · rw [hl, allocAtKey_append, allocAtKey_single]
    by_cases hk : k = itemKey si
    · have hc : allocContrib k (⟨si.productId, q', si.price⟩ : RevLine) = q' := by
        unfold allocContrib
        rw [if_pos (by rw [hk]; rfl)]
      rw [hc]
      have hck : consumeRev st si k = st.remRev (itemKey si) - alreadyOf st si := by
        rw [consumeRev_apply, if_pos hk]
      have hsc : soldContrib k si = si.quantity := by
        unfold soldContrib
        rw [if_pos hk.symm]
      rw [hck, hsc, hk]
      unfold remainingOf at hle
      linarith
    · have hc : allocContrib k (⟨si.productId, q', si.price⟩ : RevLine) = 0 := by
        unfold allocContrib
        rw [if_neg (fun hh => hk hh.symm)]
      rw [hc]
      linarith [hd.2]

theorem runLoop_error_eq (ip : Bool) (ri : String → Option ℚ) (rp : List String) :
    ∀ (L : List SaleItem) (st : LoopState) (e : AllocError),
      runLoop ip ri rp st L = .error e → e = .exceedsRemaining := by
  intro L
  induction L with
  | nil => intro st e h; simp [runLoop] at h
  | cons si rest ih =>
    intro st e h
    simp only [runLoop] at h
    cases hp : processItem ip ri rp st si with
    | error e2 =>
      rw [hp] at h
      injection h with h
      exact h ▸ processItem_error ip ri rp st si e2 hp
    | ok st2 =>
      rw [hp] at h
      exact ih st2 e h

theorem runLoop_bound (ip : Bool) (ri : String → Option ℚ) (rp : List String)
    (L : List SaleItem) (k : Key) :
    ∀ (st st' : LoopState), (∀ si ∈ L, 0 ≤ si.quantity) →
      runLoop ip ri rp st L = .ok st' →
      allocAtKey k st'.lines + (st.remRev k - st'.remRev k) ≤
        allocAtKey k st.lines + soldAtKey k L ∧
      st'.remRev k ≤ max (st.remRev k - soldAtKey k L) 0 := by
  induction L with
  | nil =>
    intro st st' _ h
    simp only [runLoop] at h
    injection h with h
    subst h
    refine ⟨by rw [soldAtKey_nil]; linarith, ?_⟩
    rw [soldAtKey_nil, sub_zero]
    exact le_max_left _ _
  | cons si rest ih =>
    intro st st' hq h
    simp only [runLoop] at h
    cases hp : processItem ip ri rp st si with
    | error e2 => rw [hp] at h; exact absurd h (by simp)
    | ok st1 =>
      rw [hp] at h
      have hstep := processItem_ok_bound ip ri rp st st1 si k
        (hq si (List.mem_cons_self si rest)) hp
      have hrest := ih st1 st' (fun x hx => hq x (List.mem_cons_of_mem si hx)) h
      have hsrest : 0 ≤ soldAtKey k rest :=
        soldAtKey_nonneg k rest (fun x hx => hq x (List.mem_cons_of_mem si hx))
      rw [soldAtKey_cons]
      constructor
      · linarith [hstep.1, hrest.1]
      · have hchain := max_sub_chain hsrest hstep.2
        rw [sub_sub] at hchain
        exact le_trans hrest.2 hchain

theorem runLoop_lines_pos (ip : Bool) (ri : String → Option ℚ) (rp : List String)
    (L : List SaleItem) :
    ∀ (st st' : LoopState), runLoop ip ri rp st L = .ok st' →
      (∀ l ∈ st.lines, 0 < l.quantityToReverse) →
      ∀ l ∈ st'.lines, 0 < l.quantityToReverse := by
  induction L with
  | nil =>
    intro st st' h h0
    simp only [runLoop] at h
    injection h with h
    exact h ▸ h0
  | cons si rest ih =>
    intro st st' h h0
    simp only [runLoop] at h
    cases hp : processItem ip ri rp st si with
    | error e2 => rw [hp] at h; exact absurd h (by simp)
    | ok st1 =>
      rw [hp] at h
      refine ih st1 st' h ?_
      obtain ⟨_, hlines⟩ := processItem_ok_shape ip ri rp st st1 si hp
      rcases hlines with hl | ⟨q', hpos, _, hl⟩
      · exact hl ▸ h0
      · rw [hl]
        intro l hm
        rcases List.mem_append.mp hm with hm | hm
        · exact h0 l hm
        · rw [List.mem_singleton.mp hm]
          exact hpos

theorem mkPayload_lines (sale : Sale) (lines : List RevLine) :
    (mkPayload sale lines).lines = lines := rfl

theorem mkPayload_items (sale : Sale) (lines : List RevLine) :
    (mkPayload sale lines).items = lines.map (fun l =>
      { productId := l.productId, quantity := -l.quantityToReverse,
        price := centsToAmount (toCents l.unitPrice),
        total := centsToAmount (-(lineSubtotalCents l)) }) := rfl

theorem allocate_ok_parts (sale : Sale) (revs : List Sale) (ip : Bool)
    (reqs : List ReverseItemRequest) (out : AllocOutput)
    (h : allocate sale revs ip reqs = .ok out) :
    ∃ st, loopResult sale revs ip reqs = .ok st ∧ out = mkPayload sale st.lines ∧
      startsWithREV sale.receiptNumber = false ∧
      (reqs = [] ∨ requestedItemsPartOfSale sale reqs = true) ∧
      (∀ pid ∈ reqProductIds reqs, st.remReq pid ≤ 0) ∧
      st.lines ≠ [] := by
  unfold allocate at h
  by_cases hrev : startsWithREV sale.receiptNumber = true
  · rw [if_pos hrev] at h
    exact absurd h (by simp)
  · rw [if_neg hrev] at h
    cases hL : loopResult sale revs ip reqs with
    | error e => rw [hL] at h; exact absurd h (by simp)
    | ok st =>
      rw [hL] at h
      dsimp only at h
      by_cases h1 : (!reqs.isEmpty && !requestedItemsPartOfSale sale reqs) = true
      · rw [if_pos h1] at h
        exact absurd h (by simp)
      · rw [if_neg h1] at h
        by_cases h2 : (!reqs.isEmpty &&
            (reqProductIds reqs).any fun pid => decide (0 < st.remReq pid)) = true
        · rw [if_pos h2] at h
          exact absurd h (by simp)
        · rw [if_neg h2] at h
          by_cases h3 : st.lines.isEmpty = true
          · rw [if_pos h3] at h
            exact absurd h (by simp)
          · rw [if_neg h3] at h
            injection h with h
            refine ⟨st, rfl, h.symm, Bool.eq_false_iff.mpr hrev, ?_, ?_, ?_⟩
            · by_cases hre : reqs = []
              · exact Or.inl hre
              · right
                have hne : reqs.isEmpty = false := by
                  cases reqs with
                  | nil => exact absurd rfl hre
                  | cons a l => rfl
                simp [hne] at h1
                exact h1
            · intro pid hpid
              by_cases hre : reqs = []
              · subst hre
                exact absurd hpid (by simp [reqProductIds])
              · have hne : reqs.isEmpty = false := by
                  cases reqs with
                  | nil => exact absurd rfl hre
                  | cons a l => rfl
                simp [hne] at h2
                exact h2 pid hpid
            · intro hl
              exact h3 (by simp [hl])

theorem allocate_conserves (sale : Sale) (revs : List Sale) (ip : Bool)
    (reqs : List ReverseItemRequest) (out : AllocOutput)
    (hq : ∀ si ∈ sale.items, 0 ≤ si.quantity)
    (hinv : ∀ k, reversedByKey revs k ≤ soldByKey sale k)
    (h : allocate sale revs ip reqs = .ok out) (k : Key) :
    reversedByKey revs k + allocAtKey k out.lines ≤ soldByKey sale k := by
  obtain ⟨st, hL, hout, -⟩ := allocate_ok_parts sale revs ip reqs out h
  unfold loopResult at hL
  have hb := runLoop_bound ip (reqBySaleItem reqs) (reqProductIds reqs) sale.items k
    _ st hq hL
  have hmax : max (reversedByKey revs k - soldAtKey k sale.items) 0 = 0 :=
    max_eq_right (by have := hinv k; unfold soldByKey at this; linarith)
  have h2 : st.remRev k ≤ 0 := by
    have := hb.2
    simp only [hmax] at this
    exact this
  have h1 := hb.1
  rw [allocAtKey_nil] at h1
  rw [hout, mkPayload_lines]
  unfold soldByKey
  linarith

theorem allocate_lines_pos (sale : Sale) (revs : List Sale) (ip : Bool)
    (reqs : List ReverseItemRequest) (out : AllocOutput)
    (h : allocate sale revs ip reqs = .ok out) :
    ∀ l ∈ out.lines, 0 < l.quantityToReverse := by
  obtain ⟨st, hL, hout, -⟩ := allocate_ok_parts sale revs ip reqs out h
  unfold loopResult at hL
  rw [hout, mkPayload_lines]
  exact runLoop_lines_pos _ _ _ sale.items _ st hL (by intro l hl; exact absurd hl (by simp))

theorem revContrib_payload (l : RevLine) (hpos : 0 < l.quantityToReverse) (k : Key) :
    revContrib (SaleItem.mk "" l.productId (-l.quantityToReverse)
      (centsToAmount (toCents l.unitPrice))) k = allocContrib k l := by
  unfold revContrib allocContrib itemKey lineKey
  rw [if_neg (by simp; linarith), if_neg (by simp; linarith)]
  simp only [toCents_centsToAmount, neg_neg]
  by_cases hk : k = (l.productId, toCents l.unitPrice)
  · rw [if_pos hk, if_pos hk.symm]
  · rw [if_neg hk, if_neg (fun hh => hk hh.symm)]

theorem sumRevContrib_reversalSale (saleId : String) (sale : Sale) (out : AllocOutput)
    (lines : List RevLine) (hout : out = mkPayload sale lines)
    (hpos : ∀ l ∈ lines, 0 < l.quantityToReverse) (k : Key) :
    sumRevContrib (reversalSaleOf saleId sale out).items k = allocAtKey k lines := by
  unfold sumRevContrib allocAtKey reversalSaleOf
  rw [hout, mkPayload_items]
  simp only [List.map_map]
  congr 1
  apply List.map_congr_left
  intro l hl
  simp only [Function.comp]
  exact revContrib_payload l (hpos l hl) k

theorem allocate_step_preserves (saleId : String) (sale : Sale) (revs : List Sale) (ip : Bool)
    (reqs : List ReverseItemRequest) (out : AllocOutput)
    (hq : ∀ si ∈ sale.items, 0 ≤ si.quantity)
    (hinv : ∀ k, reversedByKey revs k ≤ soldByKey sale k)
    (h : allocate sale revs ip reqs = .ok out) (k : Key) :
    reversedByKey (revs ++ [reversalSaleOf saleId sale out]) k ≤ soldByKey sale k := by
  rw [reversedByKey_append]
  obtain ⟨st, hL, hout, -⟩ := allocate_ok_parts sale revs ip reqs out h
  have hpos : ∀ l ∈ st.lines, 0 < l.quantityToReverse := by
    have := allocate_lines_pos sale revs ip reqs out h
    rw [hout, mkPayload_lines] at this
    exact this
  rw [sumRevContrib_reversalSale saleId sale out st.lines hout hpos k]
  have := allocate_conserves sale revs ip reqs out hq hinv h k
  rw [hout, mkPayload_lines] at this
  exact this

/-- C2: starting from a state where every price tier's already-reversed
quantity is at most its sold quantity, after every successful reversal
operation the total reversed quantity at each `(productId, unit price)`
tier is still at most the sold quantity at that tier — equivalently,
remaining = sold − reversed never goes negative — for every original
sale (all its line quantities nonnegative) and every sequence of
successful reversals. -/
theorem c2_conservation (sale : Sale) (saleId : String)
    (steps : List (Bool × List ReverseItemRequest)) :
    ∀ (revs revs' : List Sale), (∀ si ∈ sale.items, 0 ≤ si.quantity) →
      (∀ k, reversedByKey revs k ≤ soldByKey sale k) →
      runReversals sale saleId revs steps = .ok revs' →
      ∀ k, reversedByKey revs' k ≤ soldByKey sale k := by
  induction steps with
  | nil =>
    intro revs revs' _ hinv hrun
    simp only [runReversals] at hrun
    injection hrun with hrun
    exact hrun ▸ hinv
  | cons step rest ih =>
    intro revs revs' hq hinv hrun
    obtain ⟨ip, reqs⟩ := step
    simp only [runReversals] at hrun
    cases ha : allocate sale revs ip reqs with
    | error e => rw [ha] at hrun; exact absurd hrun (by simp)
    | ok out =>
      rw [ha] at hrun
      exact ih (revs ++ [reversalSaleOf saleId sale out]) revs' hq
        (allocate_step_preserves saleId sale revs ip reqs out hq hinv ha) hrun

/-- Witness for C2: the scenario sale (10 units of `p` at 2.00), one
successful partial reversal of 4 units, checked at tier `(p, 200)`. -/
theorem c2_conservation_witness :
    reversedByKey [Sale.mk "REV-s1-0-0" (-8) (-(2/5)) "CASH" [SaleItem.mk "" "p" (-4) 2]]
      ("p", 200) ≤ soldByKey scenarioSale ("p", 200) :=
  c2_conservation scenarioSale "s1" [(true, [{ saleItemId := none, productId := "p", quantity := 4 }])]
    [] _
    (by intro si hsi; simp [scenarioSale] at hsi; rw [hsi]; norm_num)
    (by
      intro k
      rw [show reversedByKey [] k = 0 from rfl]
      unfold soldByKey
      exact soldAtKey_nonneg k scenarioSale.items
        (by intro si hsi; simp [scenarioSale] at hsi; rw [hsi]; norm_num))
    (by
      norm_num [runReversals, allocate, loopResult, runLoop, processItem, quantityFor,
        requestedForProductOf, remainingOf, alreadyOf, consumeRev, stepRemReq, reqBySaleItem, reqBySaleItemStep,
        reqByProduct, reqByProductStep, reqProductIds, reversedByKey, itemKey, updKey, updStr, resolveQuantity,
        requestedItemsPartOfSale, mkPayload, lineSubtotalCents, lineDiscountCents,
        toCents, centsToAmount, jsRound, scenarioSale, reversalSaleOf,
        show mkReversalReceipt "s1" 0 0 = "REV-s1-0-0" from by decide,
        show startsWithREV "R1" = false from by decide])
    ("p", 200)

/-- C5: a sale whose receipt number starts with the reversal marker
`REV-` can never be reversed: every reversal request against it fails
with the cannot-reverse-a-reversal error before any allocation, and the
transaction persists nothing. -/
theorem c5_reversal_of_reversal (saleId : String) (sale : Sale) (revs : List Sale)
    (ip : Bool) (reqs : List ReverseItemRequest) (npm : Option String) (uid : String)
    (millis rand : ℕ) (stockTable : String → Option ℚ)
    (hrev : startsWithREV sale.receiptNumber = true) :
    allocate sale revs ip reqs = .error .cannotReverseReversal ∧
    reverseSaleTx saleId sale revs ip reqs npm uid millis rand stockTable =
      .error .cannotReverseReversal := by
  have h1 : allocate sale revs ip reqs = .error .cannotReverseReversal := by
    unfold allocate
    rw [if_pos hrev]
  refine ⟨h1, ?_⟩
  unfold reverseSaleTx
  rw [h1]

/-- Witness for C5 at a concrete reversal sale. -/
theorem c5_reversal_of_reversal_witness :
    allocate scenarioFullReversal [] false [] = .error .cannotReverseReversal ∧
    reverseSaleTx "s1" scenarioFullReversal [] false [] none "u" 0 0 (fun _ => none) =
      .error .cannotReverseReversal :=
  c5_reversal_of_reversal "s1" scenarioFullReversal [] false [] none "u" 0 0 (fun _ => none)
    (by decide)

/-- C1: a reversal request that over-asks is a hard validation error and
is never silently clamped: (i) any error thrown inside the per-line loop
(whose only throw is the `quantityToReverse > remaining` check) surfaces
from the allocator as the exceeds-remaining error; (ii) if after per-line
resolution a product-keyed request (all requested items being part of
the sale) has positive unconsumed quantity, the allocator fails with the
exceeds-remaining error; (iii) on success every product-keyed request is
fully consumed. -/
theorem c1_exceeds_validation (sale : Sale) (revs : List Sale) (ip : Bool)
    (reqs : List ReverseItemRequest)
    (hrev : startsWithREV sale.receiptNumber = false) :
    (∀ e, loopResult sale revs ip reqs = .error e →
      allocate sale revs ip reqs = .error .exceedsRemaining) ∧
    (∀ st, loopResult sale revs ip reqs = .ok st → reqs ≠ [] →
      requestedItemsPartOfSale sale reqs = true →
      (∃ pid ∈ reqProductIds reqs, 0 < st.remReq pid) →
      allocate sale revs ip reqs = .error .exceedsRemaining) ∧
    (∀ out st, allocate sale revs ip reqs = .ok out →
      loopResult sale revs ip reqs = .ok st →
      ∀ pid ∈ reqProductIds reqs, st.remReq pid ≤ 0) := by
  have hrev2 : ¬ startsWithREV sale.receiptNumber = true := by simp [hrev]
  refine ⟨?_, ?_, ?_⟩
  · intro e h
    have he : e = .exceedsRemaining := by
      unfold loopResult at h
      exact runLoop_error_eq _ _ _ sale.items _ e h
    unfold allocate
    rw [if_neg hrev2, h, he]
  · intro st hL hne hpart ⟨pid, hpid, hpos⟩
    have hemp : reqs.isEmpty = false := by
      cases reqs with
      | nil => exact absurd rfl hne
      | cons a l => rfl
    unfold allocate
    rw [if_neg hrev2, hL]
    dsimp only
    rw [if_neg (by simp [hemp, hpart]), if_pos (by
      simp only [hemp, Bool.not_false, Bool.true_and]
      exact List.any_eq_true.mpr ⟨pid, hpid, by simp [hpos]⟩)]
  · intro out st hok hL
    obtain ⟨st2, hL2, -, -, -, hle, -⟩ := allocate_ok_parts sale revs ip reqs out hok
    rw [hL] at hL2
    injection hL2 with hL2
    exact hL2 ▸ hle

/-- Witness for C1: requesting 11 units of sale line `i1` (which sold
10) makes the loop throw, and the allocator surfaces the
exceeds-remaining error. -/
theorem c1_exceeds_validation_witness :
    allocate scenarioSale [] true [{ saleItemId := some "i1", productId := "p", quantity := 11 }] =
      .error .exceedsRemaining :=
  (c1_exceeds_validation scenarioSale [] true
      [{ saleItemId := some "i1", productId := "p", quantity := 11 }] (by decide)).1
    .exceedsRemaining
    (by
      norm_num [loopResult, runLoop, processItem, quantityFor, requestedForProductOf,
        remainingOf, alreadyOf, consumeRev, stepRemReq, reqBySaleItem, reqBySaleItemStep, reqByProduct, reqByProductStep,
        reqProductIds, reversedByKey, itemKey, updKey, updStr, resolveQuantity,
        toCents, jsRound, scenarioSale])

/-- Counterexample for C3: on a sale whose stored subtotal is negative
(−1.00, so −100 cents, which is nonzero), the code computes a line
discount of 0, while the claimed formula
`round(lineSubtotalCents × originalDiscountCents / originalSubtotalCents)`
yields 100 — the code tests `subtotal > 0`, not `≠ 0`. -/
theorem c3_counterexample :
    toCents negativeSubtotalSale.subtotal = -100 ∧
    (allocate negativeSubtotalSale [] false []).toOption.map AllocOutput.lineSubCents =
      some [-100] ∧
    (allocate negativeSubtotalSale [] false []).toOption.map AllocOutput.lineDiscCents =
      some [0] ∧
    jsRound ((((-100 : ℤ) * toCents negativeSubtotalSale.discount : ℤ) : ℚ) /
      ((toCents negativeSubtotalSale.subtotal : ℤ) : ℚ)) = 100 ∧
    (0 : ℤ) ≠ 100 := by
  refine ⟨?_, ?_, ?_, ?_, by decide⟩ <;>
    norm_num [allocate, loopResult, runLoop, processItem, quantityFor, requestedForProductOf,
      remainingOf, alreadyOf, consumeRev, stepRemReq, reqBySaleItem, reqBySaleItemStep, reqByProduct, reqByProductStep,
      reqProductIds, reversedByKey, itemKey, updKey, updStr, resolveQuantity,
      requestedItemsPartOfSale, mkPayload, lineSubtotalCents, lineDiscountCents,
      toCents, centsToAmount, jsRound, negativeSubtotalSale, Except.toOption,
      show startsWithREV "R2" = false from by decide]

/-- C3 (amended): for every reversal line the line's discount in cents
equals `round(lineSubtotalCents × originalDiscountCents /
originalSubtotalCents)` when the original subtotal in cents is
*positive*, and is 0 otherwise (zero or negative); in particular, for a
sale of 10 units at 2.00 with discount 1.00, a partial reversal of 4
units yields line subtotal −8.00 (800 cents before negation), line
discount −0.40 (40 cents), and reversal total −7.60. -/
theorem c3_proportional_discount (sale : Sale) (revs : List Sale) (ip : Bool)
    (reqs : List ReverseItemRequest) (out : AllocOutput)
    (h : allocate sale revs ip reqs = .ok out) :
    out.lineDiscCents = out.lineSubCents.map (fun lsc =>
      if 0 < toCents sale.subtotal then
        jsRound (((lsc * toCents sale.discount : ℤ) : ℚ) / ((toCents sale.subtotal : ℤ) : ℚ))
      else 0) ∧
    allocate scenarioSale [] true [{ saleItemId := none, productId := "p", quantity := 4 }] =
      .ok (AllocOutput.mk [RevLine.mk "p" 4 2] [ReversalItem.mk "p" (-4) 2 (-8)]
        [800] [40] (-8) (-(2/5)) (-(38/5))) := by
  constructor
  · obtain ⟨st, -, hout, -⟩ := allocate_ok_parts sale revs ip reqs out h
    rw [hout]
    rfl
  · norm_num [allocate, loopResult, runLoop, processItem, quantityFor, requestedForProductOf,
      remainingOf, alreadyOf, consumeRev, stepRemReq, reqBySaleItem, reqBySaleItemStep, reqByProduct, reqByProductStep,
      reqProductIds, reversedByKey, itemKey, updKey, updStr, resolveQuantity,
      requestedItemsPartOfSale, mkPayload, lineSubtotalCents, lineDiscountCents,
      toCents, centsToAmount, jsRound, scenarioSale,
      show startsWithREV "R1" = false from by decide]

/-- Witness for C3 at the specification's scenario input. -/
theorem c3_proportional_discount_witness :
    (AllocOutput.mk [RevLine.mk "p" 4 2] [ReversalItem.mk "p" (-4) 2 (-8)]
        [800] [40] (-8) (-(2/5)) (-(38/5))).lineDiscCents =
      (AllocOutput.mk [RevLine.mk "p" 4 2] [ReversalItem.mk "p" (-4) 2 (-8)]
        [800] [40] (-8) (-(2/5)) (-(38/5))).lineSubCents.map (fun lsc =>
        if 0 < toCents scenarioSale.subtotal then
          jsRound (((lsc * toCents scenarioSale.discount : ℤ) : ℚ) /
            ((toCents scenarioSale.subtotal : ℤ) : ℚ))
        else 0) ∧
    allocate scenarioSale [] true [{ saleItemId := none, productId := "p", quantity := 4 }] =
      .ok (AllocOutput.mk [RevLine.mk "p" 4 2] [ReversalItem.mk "p" (-4) 2 (-8)]
        [800] [40] (-8) (-(2/5)) (-(38/5))) :=
  c3_proportional_discount scenarioSale [] true
    [{ saleItemId := none, productId := "p", quantity := 4 }] _
    (by norm_num [allocate, loopResult, runLoop, processItem, quantityFor,
      requestedForProductOf, remainingOf, alreadyOf, consumeRev, stepRemReq, reqBySaleItem,
      reqBySaleItemStep, reqByProduct, reqByProductStep, reqProductIds, reversedByKey,
      itemKey, updKey, updStr, resolveQuantity,
      requestedItemsPartOfSale, mkPayload, lineSubtotalCents, lineDiscountCents,
      toCents, centsToAmount, jsRound, scenarioSale,
      show startsWithREV "R1" = false from by decide])

theorem processItem_skip (ip : Bool) (ri : String → Option ℚ) (rp : List String)
    (st : LoopState) (si : SaleItem) (h : quantityFor ip ri rp st si ≤ 0) :
    processItem ip ri rp st si = .ok { st with remRev := consumeRev st si } := by
  simp only [processItem]
  rw [if_pos h]

theorem processItem_exceeds (ip : Bool) (ri : String → Option ℚ) (rp : List String)
    (st : LoopState) (si : SaleItem) (h1 : ¬ quantityFor ip ri rp st si ≤ 0)
    (h2 : remainingOf st si < quantityFor ip ri rp st si) :
    processItem ip ri rp st si = .error .exceedsRemaining := by
  simp only [processItem]
  rw [if_neg h1, if_pos h2]

theorem alreadyOf_exhausted (st : LoopState) (si : SaleItem) (hq : 0 ≤ si.quantity)
    (hr : si.quantity ≤ st.remRev (itemKey si)) : alreadyOf st si = si.quantity := by
  unfold alreadyOf
  rw [max_eq_left (le_trans hq hr), max_eq_left hq, min_eq_right hr]

theorem processItem_exhausted (ip : Bool) (ri : String → Option ℚ) (rp : List String)
    (st : LoopState) (si : SaleItem) (hq : 0 ≤ si.quantity)
    (hr : si.quantity ≤ st.remRev (itemKey si)) :
    (processItem ip ri rp st si = .error .exceedsRemaining ∧
      ∃ q, ri si.id = some q ∧ 0 < q) ∨
    (processItem ip ri rp st si = .ok { st with remRev := consumeRev st si } ∧
      ∀ q, ri si.id = some q → q ≤ 0) := by
  have hrem : remainingOf st si = 0 := by
    unfold remainingOf
    rw [alreadyOf_exhausted st si hq hr]
    ring
  cases hri : ri si.id with
  | some qq =>
    have hqf : quantityFor ip ri rp st si = qq := by
      unfold quantityFor
      rw [hri]
      rfl
    by_cases hq0 : qq ≤ 0
    · right
      refine ⟨processItem_skip _ _ _ _ _ (by rw [hqf]; exact hq0), ?_⟩
      intro q hq2
      injection hq2 with hq2
      exact hq2 ▸ hq0
    · left
      refine ⟨processItem_exceeds _ _ _ _ _ (by rw [hqf]; exact hq0) ?_, qq, rfl,
        lt_of_not_le hq0⟩
      rw [hqf, hrem]
      exact lt_of_not_le hq0
  | none =>
    right
    refine ⟨?_, fun q hq2 => absurd hq2 (by simp)⟩
    apply processItem_skip
    unfold quantityFor
    rw [hri, hrem]
    cases hfp : requestedForProductOf rp st si with
    | some p => exact min_le_right p 0
    | none =>
      dsimp only [resolveQuantity]
      split <;> norm_num

theorem runLoop_exhausted (ip : Bool) (ri : String → Option ℚ) (rp : List String)
    (L : List SaleItem) :
    ∀ st : LoopState, (∀ si ∈ L, 0 ≤ si.quantity) →
      (∀ k, soldAtKey k L ≤ st.remRev k) →
      (runLoop ip ri rp st L = .error .exceedsRemaining ∧
        ∃ si ∈ L, ∃ q, ri si.id = some q ∧ 0 < q) ∨
      (∃ st', runLoop ip ri rp st L = .ok st' ∧ st'.lines = st.lines ∧
        st'.remReq = st.remReq ∧ ∀ si ∈ L, ∀ q, ri si.id = some q → q ≤ 0) := by
  induction L with
  | nil =>
    intro st _ _
    right
    exact ⟨st, rfl, rfl, rfl, by simp⟩
  | cons si rest ih =>
    intro st hq hinv
    have hq0 := hq si (List.mem_cons_self si rest)
    have hsc : soldContrib (itemKey si) si = si.quantity := by
      unfold soldContrib
      rw [if_pos rfl]
    have hr : si.quantity ≤ st.remRev (itemKey si) := by
      have h1 := hinv (itemKey si)
      rw [soldAtKey_cons, hsc] at h1
      have h2 : 0 ≤ soldAtKey (itemKey si) rest :=
        soldAtKey_nonneg _ _ (fun x hx => hq x (List.mem_cons_of_mem si hx))
      linarith
    rcases processItem_exhausted ip ri rp st si hq0 hr with ⟨herr, q, hq1, hq2⟩ | ⟨hok, hback⟩
    · left
      constructor
      · simp only [runLoop]
        rw [herr]
      · exact ⟨si, List.mem_cons_self si rest, q, hq1, hq2⟩
    · have hinv1 : ∀ k, soldAtKey k rest ≤ consumeRev st si k := by
        intro k
        rw [consumeRev_apply]
        by_cases hk : k = itemKey si
        · subst hk
          rw [if_pos rfl, alreadyOf_exhausted st si hq0 hr]
          have h1 := hinv (itemKey si)
          rw [soldAtKey_cons, hsc] at h1
          linarith
        · rw [if_neg hk]
          have h1 := hinv k
          rw [soldAtKey_cons, show soldContrib k si = 0 from by
            unfold soldContrib; rw [if_neg (fun hh => hk hh.symm)]] at h1
          linarith
      rcases ih { st with remRev := consumeRev st si }
          (fun x hx => hq x (List.mem_cons_of_mem si hx)) hinv1 with
        ⟨h1, si2, hsi2, q, hq1, hq2⟩ | ⟨st', h1, h2, h3, h4⟩
      · left
        refine ⟨?_, si2, List.mem_cons_of_mem si hsi2, q, hq1, hq2⟩
        simp only [runLoop]
        rw [hok]
        exact h1
      · right
        refine ⟨st', ?_, h2, h3, ?_⟩
        · simp only [runLoop]
          rw [hok]
          exact h1
        · intro x hx q hq2
          rcases List.mem_cons.mp hx with hx | hx
          · exact hback q (hx ▸ hq2)
          · exact h4 x hx q hq2

theorem reqByProductStep_ge (m : String → ℚ) (it : ReverseItemRequest) (pid : String)
    (hpos : 0 ≤ it.quantity) : m pid ≤ reqByProductStep m it pid := by
  unfold reqByProductStep
  cases hs : it.saleItemId with
  | some s => exact le_rfl
  | none =>
    dsimp only
    by_cases hk : pid = it.productId
    · rw [if_pos hk]
      linarith
    · rw [if_neg hk]

theorem foldl_reqByProductStep_ge (reqs : List ReverseItemRequest) :
    ∀ (m : String → ℚ) (pid : String), (∀ it ∈ reqs, 0 ≤ it.quantity) →
      m pid ≤ (reqs.foldl reqByProductStep m) pid := by
  induction reqs with
  | nil => intro m pid _; exact le_rfl
  | cons a rest ih =>
    intro m pid hpos
    rw [List.foldl_cons]
    calc m pid ≤ reqByProductStep m a pid :=
      reqByProductStep_ge m a pid (hpos a (List.mem_cons_self a rest))
    _ ≤ (rest.foldl reqByProductStep (reqByProductStep m a)) pid :=
      ih (reqByProductStep m a) pid (fun x hx => hpos x (List.mem_cons_of_mem a hx))

theorem foldl_reqByProduct_mem (r : ReverseItemRequest) (hsid : r.saleItemId = none) :
    ∀ (reqs : List ReverseItemRequest) (m : String → ℚ), r ∈ reqs →
      (∀ it ∈ reqs, 0 < it.quantity) →
      m r.productId + r.quantity ≤ (reqs.foldl reqByProductStep m) r.productId := by
  intro reqs
  induction reqs with
  | nil => intro m hr; exact absurd hr (by simp)
  | cons a rest ih =>
    intro m hr hpos
    rw [List.foldl_cons]
    rcases List.mem_cons.mp hr with hr | hr
    · subst hr
      have hstep : reqByProductStep m r r.productId = m r.productId + r.quantity := by
        unfold reqByProductStep
        rw [hsid]
        dsimp only
        rw [if_pos rfl]
      calc m r.productId + r.quantity = reqByProductStep m r r.productId := hstep.symm
      _ ≤ (rest.foldl reqByProductStep (reqByProductStep m r)) r.productId :=
        foldl_reqByProductStep_ge rest (reqByProductStep m r) r.productId
          (fun x hx => le_of_lt (hpos x (List.mem_cons_of_mem r hx)))
    · have hmono : m r.productId ≤ reqByProductStep m a r.productId :=
        reqByProductStep_ge m a r.productId (le_of_lt (hpos a (List.mem_cons_self a rest)))
      have hrest := ih (reqByProductStep m a) hr (fun x hx => hpos x (List.mem_cons_of_mem a hx))
      linarith

theorem reqByProduct_pos (reqs : List ReverseItemRequest) (r : ReverseItemRequest)
    (hr : r ∈ reqs) (hsid : r.saleItemId = none) (hpos : ∀ it ∈ reqs, 0 < it.quantity) :
    0 < reqByProduct reqs r.productId := by
  have h := foldl_reqByProduct_mem r hsid reqs (fun _ => 0) hr hpos
  simp only at h
  unfold reqByProduct
  have hq := hpos r hr
  linarith

theorem foldl_reqBySaleItemStep_some (reqs : List ReverseItemRequest) :
    ∀ (m : String → Option ℚ) (sid : String) (v : ℚ), m sid = some v →
      (∀ it ∈ reqs, 0 ≤ it.quantity) →
      ∃ w, (reqs.foldl reqBySaleItemStep m) sid = some w ∧ v ≤ w := by
  induction reqs with
  | nil => intro m sid v hv _; exact ⟨v, hv, le_rfl⟩
  | cons a rest ih =>
    intro m sid v hv hpos
    rw [List.foldl_cons]
    have hstep : ∃ v2, reqBySaleItemStep m a sid = some v2 ∧ v ≤ v2 := by
      unfold reqBySaleItemStep
      cases hs : a.saleItemId with
      | none => exact ⟨v, hv, le_rfl⟩
      | some s =>
        dsimp only
        by_cases hk : sid = s
        · rw [if_pos hk, hv]
          refine ⟨v + a.quantity, by rw [Option.getD_some], ?_⟩
          have := hpos a (List.mem_cons_self a rest)
          linarith
        · rw [if_neg hk]
          exact ⟨v, hv, le_rfl⟩
    obtain ⟨v2, hv2, hle⟩ := hstep
    obtain ⟨w, hw, hle2⟩ := ih (reqBySaleItemStep m a) sid v2 hv2
      (fun x hx => hpos x (List.mem_cons_of_mem a hx))
    exact ⟨w, hw, le_trans hle hle2⟩

theorem foldl_reqBySaleItem_mem (r : ReverseItemRequest) (sid : String)
    (hsid : r.saleItemId = some sid) :
    ∀ (reqs : List ReverseItemRequest) (m : String → Option ℚ), r ∈ reqs →
      (∀ it ∈ reqs, 0 < it.quantity) →
      ∃ w, (reqs.foldl reqBySaleItemStep m) sid = some w ∧
        (m sid).getD 0 + r.quantity ≤ w := by
  intro reqs
  induction reqs with
  | nil => intro m hr; exact absurd hr (by simp)
  | cons a rest ih =>
    intro m hr hpos
    rw [List.foldl_cons]
    rcases List.mem_cons.mp hr with hr | hr
    · subst hr
      have hstep : reqBySaleItemStep m r sid = some ((m sid).getD 0 + r.quantity) := by
        unfold reqBySaleItemStep
        rw [hsid]
        dsimp only
        rw [if_pos rfl]
      obtain ⟨w, hw, hle⟩ := foldl_reqBySaleItemStep_some rest (reqBySaleItemStep m r) sid
        ((m sid).getD 0 + r.quantity) hstep
        (fun x hx => le_of_lt (hpos x (List.mem_cons_of_mem r hx)))
      exact ⟨w, hw, hle⟩
    · have hgd : (m sid).getD 0 ≤ ((reqBySaleItemStep m a) sid).getD 0 := by
        unfold reqBySaleItemStep
        cases hs : a.saleItemId with
        | none => exact le_rfl
        | some s =>
          dsimp only
          by_cases hk : sid = s
          · rw [if_pos hk]
            rw [Option.getD_some]
            have := hpos a (List.mem_cons_self a rest)
            linarith
          · rw [if_neg hk]
      obtain ⟨w, hw, hle⟩ := ih (reqBySaleItemStep m a) hr
        (fun x hx => hpos x (List.mem_cons_of_mem a hx))
      exact ⟨w, hw, by linarith⟩

theorem reqBySaleItem_pos (reqs : List ReverseItemRequest) (r : ReverseItemRequest)
    (sid : String) (hr : r ∈ reqs) (hsid : r.saleItemId = some sid)
    (hpos : ∀ it ∈ reqs, 0 < it.quantity) :
    ∃ w, reqBySaleItem reqs sid = some w ∧ 0 < w := by
  obtain ⟨w, hw, hle⟩ := foldl_reqBySaleItem_mem r sid hsid reqs (fun _ => none) hr hpos
  refine ⟨w, hw, ?_⟩
  have := hpos r hr
  simp only [Option.getD_none] at hle
  linarith

/-- Counterexample for C4: with the scenario sale fully reversed, a
further *partial* request for 1 unit of product `p` fails with the
exceeds-remaining error, not the claimed nothing-left-to-reverse error. -/
theorem c4_counterexample :
    allocate scenarioSale [scenarioFullReversal] true
      [{ saleItemId := none, productId := "p", quantity := 1 }] =
      .error .exceedsRemaining ∧
    ¬ allocate scenarioSale [scenarioFullReversal] true
      [{ saleItemId := none, productId := "p", quantity := 1 }] =
      .error .nothingLeft := by
  have h : allocate scenarioSale [scenarioFullReversal] true
      [{ saleItemId := none, productId := "p", quantity := 1 }] =
      .error .exceedsRemaining := by
    norm_num [allocate, loopResult, runLoop, processItem, quantityFor, requestedForProductOf,
      remainingOf, alreadyOf, consumeRev, stepRemReq, reqBySaleItem, reqBySaleItemStep,
      reqByProduct, reqByProductStep, reqProductIds, reversedByKey, addRevItem, itemKey,
      updKey, updStr, resolveQuantity, requestedItemsPartOfSale, mkPayload,
      lineSubtotalCents, lineDiscountCents, toCents, centsToAmount, jsRound,
      scenarioSale, scenarioFullReversal, show startsWithREV "R1" = false from by decide]
  exact ⟨h, by rw [h]; simp⟩

/-- C4 (amended): once a sale's full remaining quantity has been
reversed (every tier's sold quantity is covered by prior reversals), a
further *full*-reversal request fails with the nothing-left-to-reverse
error, while a further *partial* request of any positive quantity (its
items being part of the sale) fails with the exceeds-remaining error; in
both cases the allocator returns an error, so no reversal sale, stock
change or ledger row is created. -/
theorem c4_after_exhaustion (sale : Sale) (revs : List Sale)
    (hrev : startsWithREV sale.receiptNumber = false)
    (hq : ∀ si ∈ sale.items, 0 ≤ si.quantity)
    (hfull : ∀ k, soldByKey sale k ≤ reversedByKey revs k) :
    allocate sale revs false [] = .error .nothingLeft ∧
    ∀ reqs : List ReverseItemRequest, reqs ≠ [] →
      requestedItemsPartOfSale sale reqs = true →
      (∀ it ∈ reqs, 0 < it.quantity) →
      allocate sale revs true reqs = .error .exceedsRemaining := by
  have hrev2 : ¬ startsWithREV sale.receiptNumber = true := by simp [hrev]
  constructor
  · rcases runLoop_exhausted false (reqBySaleItem []) (reqProductIds []) sale.items
        { remReq := reqByProduct [], remRev := reversedByKey revs, lines := [] } hq
        (fun k => hfull k) with ⟨herr, si, hsi, q, hq1, hq2⟩ | ⟨st', hok, hlines, hreq, hback⟩
    · exact absurd hq1 (by simp [reqBySaleItem])
    · unfold allocate
      rw [if_neg hrev2]
      unfold loopResult
      rw [hok]
      dsimp only
      rw [if_neg (by simp), if_neg (by simp), if_pos (by simp [hlines])]
  · intro reqs hne hpart hpos
    have hemp : reqs.isEmpty = false := by
      cases reqs with
      | nil => exact absurd rfl hne
      | cons a l => rfl
    rcases runLoop_exhausted true (reqBySaleItem reqs) (reqProductIds reqs) sale.items
        { remReq := reqByProduct reqs, remRev := reversedByKey revs, lines := [] } hq
        (fun k => hfull k) with ⟨herr, -⟩ | ⟨st', hok, hlines, hreq, hback⟩
    · unfold allocate
      rw [if_neg hrev2]
      unfold loopResult
      rw [herr]
    · by_cases hex : ∃ r ∈ reqs, r.saleItemId = none
      · obtain ⟨r, hr, hsid⟩ := hex
        have hpid : r.productId ∈ reqProductIds reqs := by
          unfold reqProductIds
          exact List.mem_map.mpr ⟨r, List.mem_filter.mpr ⟨hr, by simp [hsid]⟩, rfl⟩
        have hposp : 0 < st'.remReq r.productId := by
          rw [hreq]
          exact reqByProduct_pos reqs r hr hsid hpos
        unfold allocate
        rw [if_neg hrev2]
        unfold loopResult
        rw [hok]
        dsimp only
        rw [if_neg (by simp [hemp, hpart]), if_pos (by
          simp only [hemp, Bool.not_false, Bool.true_and]
          exact List.any_eq_true.mpr ⟨r.productId, hpid, by simp [hposp]⟩)]
      · push_neg at hex
        cases reqs with
        | nil => exact absurd rfl hne
        | cons r0 rest =>
          cases hs0 : r0.saleItemId with
          | none => exact absurd hs0 (hex r0 (List.mem_cons_self r0 rest))
          | some sid =>
            unfold requestedItemsPartOfSale at hpart
            have h0 := List.all_eq_true.mp hpart r0 (List.mem_cons_self r0 rest)
            rw [hs0] at h0
            dsimp only at h0
            obtain ⟨si, hsi, hid⟩ := by
              simpa only [List.any_eq_true, decide_eq_true_eq] using h0
            obtain ⟨w, hw, hwpos⟩ := reqBySaleItem_pos (r0 :: rest) r0 sid
              (List.mem_cons_self r0 rest) hs0 hpos
            have hle := hback si hsi w (by rw [hid]; exact hw)
            linarith

/-- Witness for C4: after the scenario sale is fully reversed, a full
reversal request fails with the nothing-left error. -/
theorem c4_after_exhaustion_witness :
    allocate scenarioSale [scenarioFullReversal] false [] = .error .nothingLeft :=
  (c4_after_exhaustion scenarioSale [scenarioFullReversal] (by decide)
    (by intro si hsi; simp [scenarioSale] at hsi; rw [hsi]; norm_num)
    (by
      intro k
      by_cases hk : k = (("p" : String), (200 : ℤ))
      · subst hk
        norm_num [soldByKey, soldAtKey, soldContrib, reversedByKey_eq, sumRevContrib,
          revContrib, itemKey, toCents, jsRound, scenarioSale, scenarioFullReversal]
      · norm_num [soldByKey, soldAtKey, soldContrib, reversedByKey_eq, sumRevContrib,
          revContrib, itemKey, toCents, jsRound, scenarioSale, scenarioFullReversal,
          hk, Ne.symm hk])).1

/-! ## Two-decimal arithmetic for the ledger identity -/

theorem round2_eq_div (x : ℚ) : round2 x = ((jsRound (x * 100) : ℤ) : ℚ) / 100 := rfl

theorem round2_two_dec_sub (x : ℚ) (n : ℤ) :
    round2 (round2 x - (n : ℚ) / 100) = round2 x - (n : ℚ) / 100 := by
  have h : round2 x - (n : ℚ) / 100 = ((jsRound (x * 100) - n : ℤ) : ℚ) / 100 := by
    rw [round2_eq_div]
    push_cast
    ring
  rw [h, round2_cents, ← h]

theorem round2_idem (x : ℚ) : round2 (round2 x) = round2 x := by
  rw [round2_eq_div x, round2_cents]

theorem round2_cents_add (n : ℤ) (x : ℚ) :
    round2 ((n : ℚ) / 100 + round2 x) = (n : ℚ) / 100 + round2 x := by
  have h : (n : ℚ) / 100 + round2 x = ((n + jsRound (x * 100) : ℤ) : ℚ) / 100 := by
    rw [round2_eq_div]
    push_cast
    ring
  rw [h, round2_cents, ← h]

/-- C6: every `StockAdjustment` row ever written — by the sale-reversal
path and by the direct product stock-edit path — satisfies
`quantityAfter = quantityBefore + quantityChange` exactly, for every
input quantity (including inputs with more than two decimal places),
given that the prior stock quantity is a whole number of cents (it is
always read back from the `DECIMAL(10,2)` `Stock` column, or is 0). -/
theorem c6_ledger_identity (pid : String) (existingStock : Option ℚ) (newStock qty : ℚ)
    (hb : ∃ n : ℤ, existingStock.getD 0 = (n : ℚ) / 100) :
    (∀ row, patchLedgerRow pid existingStock newStock = some row →
      row.quantityAfter = row.quantityBefore + row.quantityChange) ∧
    ((mkStockRow pid (existingStock.getD 0) qty).quantityAfter =
      (mkStockRow pid (existingStock.getD 0) qty).quantityBefore +
        (mkStockRow pid (existingStock.getD 0) qty).quantityChange) := by
  obtain ⟨n, hn⟩ := hb
  constructor
  · intro row hrow
    simp only [patchLedgerRow] at hrow
    split_ifs at hrow with hch
    injection hrow with hrow
    subst hrow
    dsimp only
    unfold pgRound2
    rw [hn, round2_cents n, round2_sub_cents newStock n, round2_two_dec_sub newStock n]
    ring
  · unfold mkStockRow
    dsimp only
    unfold pgRound2
    rw [hn, round2_cents n, round2_cents_add n qty, round2_cents_add n qty, round2_idem]

/-- Witness for C6: existing stock 0.00, a direct stock edit to 0.006
(three decimal places) and a reversal restoring 0.006 both keep the
stored identity. -/
theorem c6_ledger_identity_witness :
    (∀ row, patchLedgerRow "p" (some 0) (6/1000) = some row →
      row.quantityAfter = row.quantityBefore + row.quantityChange) ∧
    ((mkStockRow "p" ((some (0:ℚ)).getD 0) (6/1000)).quantityAfter =
      (mkStockRow "p" ((some (0:ℚ)).getD 0) (6/1000)).quantityBefore +
        (mkStockRow "p" ((some (0:ℚ)).getD 0) (6/1000)).quantityChange) :=
  c6_ledger_identity "p" (some 0) (6/1000) (6/1000) ⟨0, by norm_num⟩

/-! ## Receipt-number round trip -/

theorem string_data_append (s t : String) : (s ++ t).data = s.data ++ t.data := rfl

theorem jsSplitDash_append (l r : List Char) (hl : '-' ∉ l) :
    jsSplitDash (l ++ '-' :: r) = l :: jsSplitDash r := by
  induction l with
  | nil =>
    simp [jsSplitDash]
  | cons c cs ih =>
    have hc : ¬ c = '-' := fun hh => hl (hh ▸ List.mem_cons_self c cs)
    have ihcs := ih (fun hh => hl (List.mem_cons_of_mem c hh))
    simp only [List.cons_append, jsSplitDash, if_neg hc, List.append_eq]
    rw [ihcs]

/-- Counterexample for C7: for the sale id `a-b` (containing a dash) the
round trip truncates at the first dash: parsing the generated receipt
returns `a`, not `a-b`. -/
theorem c7_counterexample :
    parseSaleIdFromReversalReceipt (mkReversalReceipt "a-b" 1 2) = some "a" ∧
    ("a" : String) ≠ "a-b" := by
  constructor
  · rfl
  · decide

/-- C7 (amended): for every original sale id that is nonempty and
contains no `-` character (true of the ids the application generates),
parsing the receipt number generated for its reversal returns exactly
that id, for every epoch-millisecond timestamp and every random suffix
in 0..999. -/
theorem c7_receipt_roundtrip (saleId : String) (millis rand : ℕ)
    (hne : saleId ≠ "") (hnd : '-' ∉ saleId.data) (hrand : rand ≤ 999) :
    parseSaleIdFromReversalReceipt (mkReversalReceipt saleId millis rand) = some saleId := by
  have hdata : (mkReversalReceipt saleId millis rand).data =
      'R' :: 'E' :: 'V' :: '-' ::
        (saleId.data ++ '-' :: ((toString millis).data ++ '-' :: (toString rand).data)) := by
    unfold mkReversalReceipt
    simp only [string_data_append]
    simp
  have hstarts : startsWithREV (mkReversalReceipt saleId millis rand) = true := by
    unfold startsWithREV
    rw [hdata]
    rfl
  have hdatane : saleId.data ≠ [] := by
    intro h
    apply hne
    cases saleId with
    | mk d => simp only at h; rw [h]
  unfold parseSaleIdFromReversalReceipt
  rw [if_pos hstarts, hdata]
  simp only [List.drop_succ_cons, List.drop_zero]
  rw [jsSplitDash_append saleId.data _ hnd]
  dsimp only
  rw [if_neg hdatane]

/-- Witness for C7 at a concrete dash-free id. -/
theorem c7_receipt_roundtrip_witness :
    parseSaleIdFromReversalReceipt (mkReversalReceipt "abc123" 1700000000000 37) =
      some "abc123" :=
  c7_receipt_roundtrip "abc123" 1700000000000 37 (by decide) (by decide) (by decide)

/-! ## Full-reversal (no request list) allocation -/

theorem processItem_push (ip : Bool) (ri : String → Option ℚ) (rp : List String)
    (st : LoopState) (si : SaleItem) (h1 : ¬ quantityFor ip ri rp st si ≤ 0)
    (h2 : ¬ remainingOf st si < quantityFor ip ri rp st si) :
    processItem ip ri rp st si = .ok
      { remReq := stepRemReq ri rp st si (quantityFor ip ri rp st si)
        remRev := consumeRev st si
        lines := st.lines ++
          [{ productId := si.productId, quantityToReverse := quantityFor ip ri rp st si,
             unitPrice := si.price }] } := by
  simp only [processItem]
  rw [if_neg h1, if_neg h2]

theorem sub_min_eq_max (r q : ℚ) (hr : 0 ≤ r) (hq : 0 ≤ q) :
    q - min r q = max (q - r) 0 := by
  rcases le_total r q with h | h
  · rw [min_eq_left h, max_eq_left (by linarith)]
  · rw [min_eq_right h, max_eq_right (by linarith)]
    ring

theorem alreadyOf_full (st : LoopState) (si : SaleItem) (hq : 0 ≤ si.quantity)
    (hr : 0 ≤ st.remRev (itemKey si)) :
    alreadyOf st si = min (st.remRev (itemKey si)) si.quantity := by
  unfold alreadyOf
  rw [max_eq_left hr, max_eq_left hq]

theorem processItem_full (st : LoopState) (si : SaleItem) (hq : 0 ≤ si.quantity)
    (hrr : ∀ k, 0 ≤ st.remRev k) :
    ∃ st', processItem false (fun _ => none) [] st si = .ok st' ∧
      st'.remReq = st.remReq ∧
      (∀ k, st'.remRev k = max (st.remRev k - soldContrib k si) 0) ∧
      (∀ k, allocAtKey k st'.lines = allocAtKey k st.lines +
        max (soldContrib k si - st.remRev k) 0) := by
  have hr0 : 0 ≤ st.remRev (itemKey si) := hrr (itemKey si)
  have hrem : remainingOf st si = max (si.quantity - st.remRev (itemKey si)) 0 := by
    unfold remainingOf
    rw [alreadyOf_full st si hq hr0,
      sub_min_eq_max (st.remRev (itemKey si)) si.quantity hr0 hq]
  have hsci : soldContrib (itemKey si) si = si.quantity := by
    unfold soldContrib
    rw [if_pos rfl]
  have hcons : ∀ k, consumeRev st si k = max (st.remRev k - soldContrib k si) 0 := by
    intro k
    rw [consumeRev_apply]
    by_cases hk : k = itemKey si
    · subst hk
      rw [if_pos rfl, alreadyOf_full st si hq hr0, hsci, min_comm]
      exact sub_min_eq_max si.quantity (st.remRev (itemKey si)) hq hr0
    · rw [if_neg hk, show soldContrib k si = 0 from by
        unfold soldContrib; rw [if_neg (fun hh => hk hh.symm)], sub_zero,
        max_eq_left (hrr k)]
  have hmax0 : ∀ k, k ≠ itemKey si → max (soldContrib k si - st.remRev k) 0 = 0 := by
    intro k hk
    rw [show soldContrib k si = 0 from by
      unfold soldContrib; rw [if_neg (fun hh => hk hh.symm)], zero_sub]
    exact max_eq_right (by linarith [hrr k])
  have hqf : quantityFor false (fun _ => none) [] st si = remainingOf st si := by
    unfold quantityFor requestedForProductOf
    rw [if_neg (List.not_mem_nil si.productId)]
    rfl
  by_cases hz : quantityFor false (fun _ => none) [] st si ≤ 0
  · refine ⟨{ st with remRev := consumeRev st si },
      processItem_skip _ _ _ _ _ hz, rfl, hcons, ?_⟩
    intro k
    dsimp only
    have hzero : max (soldContrib k si - st.remRev k) 0 = 0 := by
      by_cases hk : k = itemKey si
      · subst hk
        rw [hsci]
        have h1 : remainingOf st si ≤ 0 := by rw [← hqf]; exact hz
        rw [hrem] at h1
        have h2 : (0:ℚ) ≤ max (si.quantity - st.remRev (itemKey si)) 0 := le_max_right _ _
        rw [← hrem] at h1 h2
        rw [hrem] at h1
        exact le_antisymm h1 (le_max_right _ _)
      · exact hmax0 k hk
    rw [hzero, add_zero]
  · have hnl : ¬ remainingOf st si < quantityFor false (fun _ => none) [] st si := by
      rw [hqf]
      exact lt_irrefl _
    have hstep : stepRemReq (fun _ => none) [] st si
        (quantityFor false (fun _ => none) [] st si) = st.remReq := by
      unfold stepRemReq requestedForProductOf
      rw [if_neg (List.not_mem_nil si.productId)]
      rfl
    refine ⟨_, processItem_push false (fun _ => none) [] st si hz hnl, ?_, hcons, ?_⟩
    · dsimp only
      exact hstep
    · intro k
      dsimp only
      rw [allocAtKey_append, allocAtKey_single]
      have hlk : lineKey (RevLine.mk si.productId
          (quantityFor false (fun _ => none) [] st si) si.price) = itemKey si := rfl
      by_cases hk : k = itemKey si
      · subst hk
        have hac : allocContrib (itemKey si) (RevLine.mk si.productId
            (quantityFor false (fun _ => none) [] st si) si.price) =
            quantityFor false (fun _ => none) [] st si := by
          unfold allocContrib
          rw [if_pos hlk]
        rw [hac, hqf, hrem, hsci]
      · have hac : allocContrib k (RevLine.mk si.productId
            (quantityFor false (fun _ => none) [] st si) si.price) = 0 := by
          unfold allocContrib
          rw [if_neg (fun hh => hk (hlk ▸ hh).symm)]
        rw [hac, hmax0 k hk]

theorem max_collapse (a c : ℚ) (hc : 0 ≤ c) : max (max a 0 - c) 0 = max (a - c) 0 := by
  rcases le_total a 0 with h | h
  · rw [max_eq_right h, max_eq_right (by linarith : a - c ≤ (0:ℚ)), zero_sub,
      max_eq_right (by linarith : -c ≤ (0:ℚ))]
  · rw [max_eq_left h]

theorem runLoop_full (L : List SaleItem) :
    ∀ st : LoopState, (∀ si ∈ L, 0 ≤ si.quantity) → (∀ k, 0 ≤ st.remRev k) →
      ∃ st', runLoop false (fun _ => none) [] st L = .ok st' ∧
        st'.remReq = st.remReq ∧
        (∀ k, st'.remRev k = max (st.remRev k - soldAtKey k L) 0) ∧
        (∀ k, allocAtKey k st'.lines = allocAtKey k st.lines +
          max (soldAtKey k L - st.remRev k) 0) := by
  induction L with
  | nil =>
    intro st _ hrr
    refine ⟨st, rfl, rfl, ?_, ?_⟩
    · intro k
      rw [soldAtKey_nil, sub_zero, max_eq_left (hrr k)]
    · intro k
      rw [soldAtKey_nil, zero_sub, max_eq_right (by linarith [hrr k]), add_zero]
  | cons si rest ih =>
    intro st hq hrr
    obtain ⟨st1, hp, hreq1, hrev1, hal1⟩ :=
      processItem_full st si (hq si (List.mem_cons_self si rest)) hrr
    have hrr1 : ∀ k, 0 ≤ st1.remRev k := by
      intro k
      rw [hrev1 k]
      exact le_max_right _ _
    obtain ⟨st', hrun, hreq2, hrev2, hal2⟩ :=
      ih st1 (fun x hx => hq x (List.mem_cons_of_mem si hx)) hrr1
    refine ⟨st', ?_, hreq2.trans hreq1, ?_, ?_⟩
    · simp only [runLoop]
      rw [hp]
      exact hrun
    · intro k
      have hsrest : 0 ≤ soldAtKey k rest :=
        soldAtKey_nonneg k rest (fun x hx => hq x (List.mem_cons_of_mem si hx))
      rw [hrev2 k, hrev1 k, soldAtKey_cons,
        max_collapse (st.remRev k - soldContrib k si) (soldAtKey k rest) hsrest, sub_sub]
    · intro k
      rw [hal2 k, hal1 k, hrev1 k, soldAtKey_cons]
      have hsc : 0 ≤ soldContrib k si :=
        soldContrib_nonneg k si (hq si (List.mem_cons_self si rest))
      have hsrest : 0 ≤ soldAtKey k rest :=
        soldAtKey_nonneg k rest (fun x hx => hq x (List.mem_cons_of_mem si hx))
      have := max_split_sum (hrr k) hsc hsrest
      linarith [this]

/-- Counterexample for C8: an `items` field that is present but an empty
list is rejected with "Select at least one item to reverse" (it does not
perform a full reversal), while an absent `items` field performs the
full reversal. -/
theorem c8_counterexample :
    handleReverseRequest "s1" (RequestBody.mk (some "u") none (some [])) (some scenarioSale)
      [] 0 0 (fun pid => if pid = "p" then some 5 else none) = .error .selectAtLeastOne ∧
    handleReverseRequest "s1" (RequestBody.mk (some "u") none none) (some scenarioSale)
      [] 0 0 (fun pid => if pid = "p" then some 5 else none) =
      .ok (ReversalRecord.mk "REV-s1-0-0" "u" "CASH" (-20) (-1) (-19)
        [ReversalItem.mk "p" (-10) 2 (-20)] [StockAdjRow.mk "p" 5 15 10] [("p", 15)]) := by
  constructor
  · norm_num [handleReverseRequest, normalizePaymentMethod, preprocessItems,
      show ("s1" : String) ≠ "" from by decide, show ("u" : String) ≠ "" from by decide]
  · norm_num [handleReverseRequest, normalizePaymentMethod, preprocessItems, reverseSaleTx,
      show ("s1" : String) ≠ "" from by decide, show ("u" : String) ≠ "" from by decide,
      lookupStocks, incrementPids, firstDedup, incrementByProductId, mkStockRow, pgRound2, round2, allocate, loopResult, runLoop, processItem, quantityFor,
      requestedForProductOf, remainingOf, alreadyOf, consumeRev, stepRemReq, reqBySaleItem,
      reqBySaleItemStep, reqByProduct, reqByProductStep, reqProductIds, reversedByKey,
      itemKey, updKey, updStr, resolveQuantity, requestedItemsPartOfSale, mkPayload,
      lineSubtotalCents, lineDiscountCents, toCents, centsToAmount, jsRound, scenarioSale,
      show mkReversalReceipt "s1" 0 0 = "REV-s1-0-0" from by decide,
      show startsWithREV "R1" = false from by decide]

/-- C8 (amended): an absent `items` field preprocesses to a full
reversal, and the full reversal reverses every line's entire remaining
quantity — at each price tier the allocated quantity is exactly
`max (sold − already reversed) 0` — provided something remains; an
`items` field that is present but empty is instead rejected with the
select-at-least-one error. -/
theorem c8_full_reversal (sale : Sale) (revs : List Sale)
    (hrev : startsWithREV sale.receiptNumber = false)
    (hq : ∀ si ∈ sale.items, 0 ≤ si.quantity) :
    preprocessItems none = .ok (false, []) ∧
    preprocessItems (some []) = .error .selectAtLeastOne ∧
    ((∃ k, reversedByKey revs k < soldByKey sale k) →
      ∃ out, allocate sale revs false [] = .ok out ∧
        ∀ k, allocAtKey k out.lines = max (soldByKey sale k - reversedByKey revs k) 0) := by
  have hrev2 : ¬ startsWithREV sale.receiptNumber = true := by simp [hrev]
  refine ⟨rfl, rfl, ?_⟩
  intro hex
  obtain ⟨k0, hk0⟩ := hex
  obtain ⟨st', hrun, hreq, hrev', hal⟩ := runLoop_full sale.items
    { remReq := reqByProduct [], remRev := reversedByKey revs, lines := [] } hq
    (fun k => reversedByKey_nonneg revs k)
  have hrun2 : loopResult sale revs false [] = .ok st' := hrun
  have hal0 : ∀ k, allocAtKey k st'.lines =
      max (soldByKey sale k - reversedByKey revs k) 0 := by
    intro k
    have h := hal k
    rw [allocAtKey_nil, zero_add] at h
    exact h
  have hne : st'.lines ≠ [] := by
    intro hl
    have h0 := hal0 k0
    rw [hl, allocAtKey_nil] at h0
    have h1 : 0 < max (soldByKey sale k0 - reversedByKey revs k0) 0 :=
      lt_of_lt_of_le (by linarith) (le_max_left _ _)
    linarith
  refine ⟨mkPayload sale st'.lines, ?_, ?_⟩
  · unfold allocate
    rw [if_neg hrev2, hrun2]
    dsimp only
    rw [if_neg (by simp), if_neg (by simp), if_neg (by simp [hne])]
  · intro k
    rw [mkPayload_lines]
    exact hal0 k

/-- Witness for C8 at the scenario sale with no prior reversals. -/
theorem c8_full_reversal_witness :
    preprocessItems none = .ok (false, []) ∧
    preprocessItems (some []) = .error .selectAtLeastOne ∧
    ((∃ k, reversedByKey [] k < soldByKey scenarioSale k) →
      ∃ out, allocate scenarioSale [] false [] = .ok out ∧
        ∀ k, allocAtKey k out.lines =
          max (soldByKey scenarioSale k - reversedByKey [] k) 0) :=
  c8_full_reversal scenarioSale [] (by decide)
    (by intro si hsi; simp [scenarioSale] at hsi; rw [hsi]; norm_num)

/-! ## Missing stock row and error surfacing -/

theorem lookupStocks_none (stockTable : String → Option ℚ) (pids : List String)
    (pid : String) (hmem : pid ∈ pids) (hnone : stockTable pid = none) :
    lookupStocks stockTable pids = none := by
  induction pids with
  | nil => exact absurd hmem (by simp)
  | cons a rest ih =>
    rcases List.mem_cons.mp hmem with h | h
    · subst h
      unfold lookupStocks
      rw [hnone]
    · unfold lookupStocks
      cases ha : stockTable a with
      | none => rfl
      | some q =>
        rw [ih h]

/-- Counterexample for C9: with every `Stock` row missing, a full
reversal of the scenario sale fails with the missing-stock error, which
the route's catch block maps to HTTP status 400, not a 500-class
response. -/
theorem c9_counterexample :
    reverseSaleTx "s1" scenarioSale [] false [] none "u" 0 0 (fun _ => none) =
      .error .missingStock ∧
    statusOfError .missingStock = 400 ∧ statusOfError .missingStock ≠ 500 := by
  refine ⟨?_, by decide, by decide⟩
  norm_num [reverseSaleTx, lookupStocks, incrementPids, firstDedup, incrementByProductId,
    allocate, loopResult, runLoop, processItem, quantityFor, requestedForProductOf,
    remainingOf, alreadyOf, consumeRev, stepRemReq, reqBySaleItem, reqBySaleItemStep,
    reqByProduct, reqByProductStep, reqProductIds, reversedByKey, itemKey, updKey, updStr,
    resolveQuantity, requestedItemsPartOfSale, mkPayload, lineSubtotalCents,
    lineDiscountCents, toCents, centsToAmount, jsRound, scenarioSale,
    show startsWithREV "R1" = false from by decide]

/-- C9 (amended): when the `Stock` row for a product on the sale is
missing, the transaction fails with the missing-stock error before any
sale, stock or ledger write, and the error is surfaced with HTTP status
400 (the catch block recognizes its message as a known validation
failure; the claimed 500-class response does not occur). -/
theorem c9_missing_stock (saleId : String) (sale : Sale) (revs : List Sale) (ip : Bool)
    (reqs : List ReverseItemRequest) (npm : Option String) (uid : String) (millis rand : ℕ)
    (stockTable : String → Option ℚ) (out : AllocOutput)
    (halloc : allocate sale revs ip reqs = .ok out)
    (pid : String) (hmem : pid ∈ incrementPids out.lines) (hnone : stockTable pid = none) :
    reverseSaleTx saleId sale revs ip reqs npm uid millis rand stockTable =
      .error .missingStock ∧
    statusOfError .missingStock = 400 := by
  constructor
  · unfold reverseSaleTx
    rw [halloc]
    dsimp only
    rw [lookupStocks_none stockTable _ pid hmem hnone]
  · decide

/-- Witness for C9 at the scenario sale with an empty stock table. -/
theorem c9_missing_stock_witness :
    reverseSaleTx "s1" scenarioSale [] true
      [{ saleItemId := none, productId := "p", quantity := 4 }] none "u" 0 0
      (fun _ => none) = .error .missingStock ∧
    statusOfError .missingStock = 400 :=
  c9_missing_stock "s1" scenarioSale [] true
    [{ saleItemId := none, productId := "p", quantity := 4 }] none "u" 0 0 (fun _ => none)
    (AllocOutput.mk [RevLine.mk "p" 4 2] [ReversalItem.mk "p" (-4) 2 (-8)]
      [800] [40] (-8) (-(2/5)) (-(38/5)))
    (by norm_num [allocate, loopResult, runLoop, processItem, quantityFor,
      requestedForProductOf, remainingOf, alreadyOf, consumeRev, stepRemReq, reqBySaleItem,
      reqBySaleItemStep, reqByProduct, reqByProductStep, reqProductIds, reversedByKey,
      itemKey, updKey, updStr, resolveQuantity, requestedItemsPartOfSale, mkPayload,
      lineSubtotalCents, lineDiscountCents, toCents, centsToAmount, jsRound, scenarioSale,
      show startsWithREV "R1" = false from by decide])
    "p" (by norm_num [incrementPids, firstDedup]) rfl

/-! ## Payment-method handling -/

theorem string_length_eq_zero {s : String} (h : s.length = 0) : s = "" := by
  cases s with
  | mk d =>
    cases d with
    | nil => rfl
    | cons c cs => exact absurd h (by simp [String.length])

theorem reverseSaleTx_pm (saleId : String) (sale : Sale) (revs : List Sale) (ip : Bool)
    (reqs : List ReverseItemRequest) (npm : Option String) (uid : String) (millis rand : ℕ)
    (stockTable : String → Option ℚ) (rec : ReversalRecord)
    (h : reverseSaleTx saleId sale revs ip reqs npm uid millis rand stockTable = .ok rec) :
    rec.paymentMethod = npm.getD sale.paymentMethod := by
  unfold reverseSaleTx at h
  cases ha : allocate sale revs ip reqs with
  | error e => rw [ha] at h; exact absurd h (by simp)
  | ok out =>
    rw [ha] at h
    dsimp only at h
    cases hl : lookupStocks stockTable (incrementPids out.lines) with
    | none => rw [hl] at h; exact absurd h (by simp)
    | some sb =>
      rw [hl] at h
      injection h with h
      rw [← h]

/-- C10: when the request's `paymentMethod` is absent, `null` or blank,
the created reversal sale's payment method equals the original sale's;
when a value is supplied, it is uppercased and — being one of the
enumerated methods, which success guarantees — used verbatim on the
reversal sale. -/
theorem c10_payment_method (saleId : String) (body : RequestBody) (findSale : Option Sale)
    (revs : List Sale) (millis rand : ℕ) (stockTable : String → Option ℚ)
    (rec : ReversalRecord)
    (h : handleReverseRequest saleId body findSale revs millis rand stockTable = .ok rec) :
    ((body.paymentMethod = none ∨ ∃ s, body.paymentMethod = some s ∧ jsTrim s = "") →
      ∃ sale, findSale = some sale ∧ rec.paymentMethod = sale.paymentMethod) ∧
    (∀ s, body.paymentMethod = some s → jsTrim s ≠ "" →
      rec.paymentMethod = jsToUpper s ∧ jsToUpper s ∈ paymentMethods) := by
  unfold handleReverseRequest at h
  by_cases h1 : saleId = ""
  · rw [if_pos h1] at h
    exact absurd h (by simp)
  · rw [if_neg h1] at h
    by_cases h2 : body.userId.getD "" = ""
    · rw [if_pos h2] at h
      exact absurd h (by simp)
    · rw [if_neg h2] at h
      cases hn : normalizePaymentMethod body.paymentMethod with
      | error e => rw [hn] at h; exact absurd h (by simp)
      | ok npm =>
        rw [hn] at h
        dsimp only at h
        cases hp : preprocessItems body.items with
        | error e => rw [hp] at h; exact absurd h (by simp)
        | ok pair =>
          rw [hp] at h
          obtain ⟨ip, reqs⟩ := pair
          dsimp only at h
          cases findSale with
          | none => exact absurd h (by simp)
          | some sale =>
            dsimp only at h
            have hpm := reverseSaleTx_pm saleId sale revs ip reqs npm
              (body.userId.getD "") millis rand stockTable rec h
            constructor
            · intro hcase
              refine ⟨sale, rfl, ?_⟩
              have hnone : npm = none := by
                rcases hcase with hc | ⟨s, hs, htr⟩
                · rw [hc] at hn
                  simp only [normalizePaymentMethod] at hn
                  injection hn with hn
                  exact hn.symm
                · rw [hs] at hn
                  simp only [normalizePaymentMethod] at hn
                  rw [if_pos (by rw [htr]; rfl)] at hn
                  injection hn with hn
                  exact hn.symm
              rw [hpm, hnone]
              rfl
            · intro s hs htr
              rw [hs] at hn
              simp only [normalizePaymentMethod] at hn
              rw [if_neg (by
                intro hlen
                exact htr (string_length_eq_zero hlen))] at hn
              by_cases hmem : jsToUpper s ∈ paymentMethods
              · rw [if_pos hmem] at hn
                injection hn with hn
                rw [hpm, ← hn]
                exact ⟨rfl, hmem⟩
              · rw [if_neg hmem] at hn
                exact absurd hn (by simp)

/-- Witness for C10: supplying `card` yields a reversal sale paid by
`CARD`. -/
theorem c10_payment_method_witness :
    (((RequestBody.mk (some "u") (some "card") none).paymentMethod = none ∨
      ∃ s, (RequestBody.mk (some "u") (some "card") none).paymentMethod = some s ∧
        jsTrim s = "") →
      ∃ sale, (some scenarioSale) = some sale ∧
        (ReversalRecord.mk "REV-s1-0-0" "u" "CARD" (-20) (-1) (-19)
          [ReversalItem.mk "p" (-10) 2 (-20)] [StockAdjRow.mk "p" 5 15 10]
          [("p", 15)]).paymentMethod = sale.paymentMethod) ∧
    (∀ s, (RequestBody.mk (some "u") (some "card") none).paymentMethod = some s →
      jsTrim s ≠ "" →
      (ReversalRecord.mk "REV-s1-0-0" "u" "CARD" (-20) (-1) (-19)
        [ReversalItem.mk "p" (-10) 2 (-20)] [StockAdjRow.mk "p" 5 15 10]
        [("p", 15)]).paymentMethod = jsToUpper s ∧ jsToUpper s ∈ paymentMethods) :=
  c10_payment_method "s1" (RequestBody.mk (some "u") (some "card") none) (some scenarioSale)
    [] 0 0 (fun pid => if pid = "p" then some 5 else none)
    (ReversalRecord.mk "REV-s1-0-0" "u" "CARD" (-20) (-1) (-19)
      [ReversalItem.mk "p" (-10) 2 (-20)] [StockAdjRow.mk "p" 5 15 10] [("p", 15)])
    (by norm_num [handleReverseRequest, preprocessItems, reverseSaleTx,
      show ("s1" : String) ≠ "" from by decide, show ("u" : String) ≠ "" from by decide,
      show normalizePaymentMethod (some "card") = .ok (some "CARD") from by decide,
      lookupStocks, incrementPids, firstDedup, incrementByProductId, mkStockRow, pgRound2, round2, allocate, loopResult, runLoop, processItem, quantityFor,
      requestedForProductOf, remainingOf, alreadyOf, consumeRev, stepRemReq, reqBySaleItem,
      reqBySaleItemStep, reqByProduct, reqByProductStep, reqProductIds, reversedByKey,
      itemKey, updKey, updStr, resolveQuantity, requestedItemsPartOfSale, mkPayload,
      lineSubtotalCents, lineDiscountCents, toCents, centsToAmount, jsRound, scenarioSale,
      show mkReversalReceipt "s1" 0 0 = "REV-s1-0-0" from by decide,
      show startsWithREV "R1" = false from by decide])
